import Mathlib

/-!
Verification of the line-reconciliation engine of react-diff-viewer-continued.

The development shallowly embeds the two core source files:
* `src/src/compute-lines.ts` — `constructLines`, `computeDiff`,
  `computeLineInformation` (with its inner closure `getLineInformation`);
* `src/unnamed/part_000` — `computeHiddenBlocks`;
plus the input-type guard at the top of `render` in `src/src/index.tsx`.

The external text-diff primitive (jsdiff) is out of scope per the spec: the
chunk sequence it produces is an input (`List Change`), and the intra-line
compare method is a function parameter `compareFunc`.
-/

namespace ReactDiffViewer

/-- Embeds the jsdiff change object (`JsDiffChangeObject` in compute-lines.ts):
`{ added?: boolean; removed?: boolean; value?: string }`. -/
structure Change where
  added : Bool
  removed : Bool
  value : String
deriving Repr, DecidableEq

/-- Embeds `enum DiffType` (compute-lines.ts lines 5-10). -/
inductive DiffType where
  | DEFAULT
  | ADDED
  | REMOVED
  | CHANGED
deriving Repr, DecidableEq

/-- A word/char-level diff unit: a `DiffInformation` produced by `computeDiff`,
whose `value` is always a plain string. -/
structure Fragment where
  type : DiffType
  value : String
deriving Repr, DecidableEq

/-- The `value` field of a `DiffInformation`: `string | DiffInformation[]` in the
source; the array case only ever holds word-diff fragments. -/
inductive DiffValue where
  | str (s : String)
  | frags (l : List Fragment)
deriving Repr, DecidableEq

/-- Embeds `interface DiffInformation` (compute-lines.ts lines 24-28); every
field is optional in the source, hence the `Option`s. `{}` is the fresh empty
object the source starts each side from. -/
structure DiffInformation where
  value : Option DiffValue := none
  lineNumber : Option Nat := none
  type : Option DiffType := none
deriving Repr, DecidableEq

/-- Embeds `interface LineInformation` (compute-lines.ts lines 30-33). -/
structure LineInformation where
  left : DiffInformation := {}
  right : DiffInformation := {}
deriving Repr, DecidableEq

/-- Embeds `interface ComputedLineInformation` (compute-lines.ts lines 35-38). -/
structure ComputedLineInformation where
  lineInformation : List LineInformation
  diffLines : List Nat
deriving Repr, DecidableEq

/-- Splits a character list at every newline character; embeds the behavior of
JavaScript `.split("\n")` (each `'\n'` is a separator, so a string with no
newline yields one piece and `""` yields `[""]`). -/
def splitNewlines : List Char → List Char → List (List Char)
  | [], acc => [acc.reverse]
  | c :: cs, acc =>
    if c = '\n' then acc.reverse :: splitNewlines cs []
    else splitNewlines cs (c :: acc)

/-- Embeds `constructLines` (compute-lines.ts lines 59-65):
`if (value === "") return []; return value.replace(/\n$/, "").split("\n")`.
The regex `/\n$/` strips exactly one trailing newline; the split is done at the
character level so that everything evaluates by `decide`. -/
def constructLines (value : String) : List String :=
  if value = "" then []
  else
    let cs := value.data
    let stripped := if cs.getLast? = some '\n' then cs.dropLast else cs
    (splitNewlines stripped []).map fun l => String.mk l

/-- Embeds `computeDiff` (compute-lines.ts lines 75-114). The external compare
function has already been applied; its change-object output is the argument.
Returns `(left, right)`. When a change object carries both flags the source
pushes one shared object to both lists and its `type` field is mutated to
`REMOVED` last, which is reflected in the first branch. -/
def computeDiffStep (acc : List Fragment × List Fragment) (c : Change) :
    List Fragment × List Fragment :=
  if c.added && c.removed then
    (acc.1 ++ [⟨DiffType.REMOVED, c.value⟩], acc.2 ++ [⟨DiffType.REMOVED, c.value⟩])
  else if c.added then
    (acc.1, acc.2 ++ [⟨DiffType.ADDED, c.value⟩])
  else if c.removed then
    (acc.1 ++ [⟨DiffType.REMOVED, c.value⟩], acc.2)
  else
    (acc.1 ++ [⟨DiffType.DEFAULT, c.value⟩], acc.2 ++ [⟨DiffType.DEFAULT, c.value⟩])

def computeDiff (diffArray : List Change) : List Fragment × List Fragment :=
  diffArray.foldl computeDiffStep ([], [])

/-- The mutable locals of `computeLineInformation` (compute-lines.ts lines
154-159) that the inner closure `getLineInformation` reads and writes. The
ignore list holds the `` `${diffIndex}-${lineIndex}` `` strings as pairs. -/
structure ReconcilerState where
  leftLineNumber : Nat
  rightLineNumber : Nat
  counter : Nat
  diffLines : List Nat
  ignoreDiffIndexes : List (Nat × Nat)
deriving Repr, DecidableEq

/-- The `` `L-${left.lineNumber}` `` / `` `R-${right.lineNumber}` `` template
strings of compute-lines.ts lines 266-267; an absent line number renders as
the JavaScript string `"undefined"`. -/
def numToken (side : String) (n : Option Nat) : String :=
  side ++ "-" ++ (match n with | some k => toString k | none => "undefined")

/-- The recursive call `getLineInformation(nextDiffLines, diffIndex, true,
false, true)` of compute-lines.ts lines 197-203, specialised to its only use:
`nextDiffLines` is a single nonempty line (an element of a `constructLines`
result), so the callee maps over exactly that one line with `lineIndex = 0`,
`added = true`, `removed = false`, `evaluateOnlyFirstLine = true`. Returns the
produced row's `right` object and the updated state, or `none` when the callee
skips the line through the ignore list. -/
def lookaheadLine (showLines : List String) (diffIndex : Nat) (line : String)
    (st : ReconcilerState) : Option (DiffInformation × ReconcilerState) :=
  if st.ignoreDiffIndexes.contains (diffIndex, 0) then none
  else
    let r := st.rightLineNumber + 1
    let right : DiffInformation :=
      { value := some (DiffValue.str line), lineNumber := some r,
        type := some DiffType.ADDED }
    -- the `countAsChange` push is skipped (`evaluateOnlyFirstLine` is true) but
    -- the showLines check of lines 265-271 still runs, with `left = {}`
    let dl :=
      if showLines.contains (numToken "L" none) ||
          (showLines.contains (numToken "R" (some r)) &&
            !(st.diffLines.contains st.counter)) then
        st.diffLines ++ [st.counter]
      else st.diffLines
    some (right, { st with rightLineNumber := r, diffLines := dl })

/-- The line the one-chunk lookahead of compute-lines.ts lines 193-196 merges
with: `diffArray[diffIndex + 1]` must exist and be `added`, and
`constructLines(nextDiff.value)[lineIndex]` must be truthy (present and not the
empty string). All falsy outcomes leave the `if` bodies unentered and yield a
pure removal row, hence the single `none`. -/
def lookaheadTarget (diffArray : List Change) (diffIndex lineIndex : Nat) :
    Option String :=
  match diffArray.get? (diffIndex + 1) with
  | some nextDiff =>
    if nextDiff.added then
      match (constructLines nextDiff.value).get? lineIndex with
      | some nl => if nl = "" then none else some nl
      | none => none
    else none
  | none => none

/-- The common tail of the map callback (compute-lines.ts lines 248-276) in the
main pass (`evaluateOnlyFirstLine` false): the `countAsChange` registration,
the `showLines` forced registration, the `counter` increment and the row. -/
def finishRow (showLines : List String) (left right : DiffInformation)
    (countAsChange : Bool) (st : ReconcilerState) :
    Option LineInformation × ReconcilerState :=
  let dl1 :=
    if countAsChange && !(st.diffLines.contains st.counter) then
      st.diffLines ++ [st.counter]
    else st.diffLines
  let dl2 :=
    if showLines.contains (numToken "L" left.lineNumber) ||
        (showLines.contains (numToken "R" right.lineNumber) &&
          !(dl1.contains st.counter)) then
      dl1 ++ [st.counter]
    else dl1
  (some { left := left, right := right },
    { st with diffLines := dl2, counter := st.counter + 1 })

/-- The modification-merge continuation (compute-lines.ts lines 205-239): the
ignore-list push, the byte-comparison `left.value === rightValue` downgrade,
and the word-diff / plain assignment of the `right` (and possibly `left`)
values. `left0` carries the already-substituted removed value. -/
def mergeRemoved (showLines : List String) (disableWordDiff : Bool)
    (compareFunc : String → String → List Change) (diffIndex lineIndex : Nat)
    (line nl : String) (left0 rightInfo : DiffInformation)
    (st : ReconcilerState) : Option LineInformation × ReconcilerState :=
  let rightValue := rightInfo.value
  let st1 := { st with
    ignoreDiffIndexes := st.ignoreDiffIndexes ++ [(diffIndex + 1, lineIndex)] }
  let right0 : DiffInformation := { lineNumber := rightInfo.lineNumber }
  if left0.value = rightValue then
    -- the new value is exactly the same as the old: not counted as a change
    finishRow showLines { left0 with type := some DiffType.DEFAULT }
      { right0 with type := some DiffType.DEFAULT, value := rightValue }
      false st1
  else
    if disableWordDiff then
      finishRow showLines left0
        { right0 with type := rightInfo.type, value := rightValue } true st1
    else
      let cd := computeDiff (compareFunc line nl)
      let rightW : DiffInformation :=
        { right0 with type := rightInfo.type, value := some (DiffValue.frags cd.2) }
      finishRow showLines
        { left0 with value := some (DiffValue.frags cd.1) } rightW true st1

/-- The body of the map callback of the inner closure (compute-lines.ts lines
173-277) for one line of one chunk, in the main pass (`evaluateOnlyFirstLine`
false). Returns the emitted row (`none` when the callback returns null) and the
updated state.

When the lookahead's recursive call is skipped through the ignore list the
source would read `.right` of `undefined`; that state is unreachable when no
chunk is both added and removed, and is modelled here as the code's own
`if (!rightInfo) return null` guard firing. -/
def getLineRow (showLines : List String) (diffArray : List Change)
    (disableWordDiff : Bool) (compareFunc : String → String → List Change)
    (diffIndex : Nat) (added removed : Bool) (line : String) (lineIndex : Nat)
    (st : ReconcilerState) : Option LineInformation × ReconcilerState :=
  if st.ignoreDiffIndexes.contains (diffIndex, lineIndex) then (none, st)
  else if added || removed then
    if removed then
      let l := st.leftLineNumber + 1
      let left0 : DiffInformation :=
        { value := some (DiffValue.str (if line = "" then " " else line)),
          lineNumber := some l, type := some DiffType.REMOVED }
      let st1 := { st with leftLineNumber := l }
      match lookaheadTarget diffArray diffIndex lineIndex with
      | none => finishRow showLines left0 {} true st1
      | some nl =>
        match lookaheadLine showLines diffIndex nl st1 with
        | none => (none, st1)
        | some (rightInfo, st2) =>
          mergeRemoved showLines disableWordDiff compareFunc diffIndex
            lineIndex line nl left0 rightInfo st2
    else
      let r := st.rightLineNumber + 1
      finishRow showLines {}
        { value := some (DiffValue.str line), lineNumber := some r,
          type := some DiffType.ADDED }
        true { st with rightLineNumber := r }
  else
    let l := st.leftLineNumber + 1
    let r := st.rightLineNumber + 1
    finishRow showLines
      { value := some (DiffValue.str line), lineNumber := some l,
        type := some DiffType.DEFAULT }
      { value := some (DiffValue.str line), lineNumber := some r,
        type := some DiffType.DEFAULT }
      false { st with leftLineNumber := l, rightLineNumber := r }

/-- The `lines.map(...).filter(item => item !== null)` traversal of the inner
closure, threading the shared mutable state left to right. -/
def getLineRows (showLines : List String) (diffArray : List Change)
    (disableWordDiff : Bool) (compareFunc : String → String → List Change)
    (diffIndex : Nat) (added removed : Bool) :
    List String → Nat → ReconcilerState →
      List LineInformation × ReconcilerState
  | [], _, st => ([], st)
  | line :: rest, lineIndex, st =>
    let p := getLineRow showLines diffArray disableWordDiff compareFunc
      diffIndex added removed line lineIndex st
    let q := getLineRows showLines diffArray disableWordDiff compareFunc
      diffIndex added removed rest (lineIndex + 1) p.2
    (p.1.toList ++ q.1, q.2)

/-- The inner closure `getLineInformation` (compute-lines.ts lines 160-279)
applied to one chunk's `value` in the main pass. -/
def getLineInformation (showLines : List String) (diffArray : List Change)
    (disableWordDiff : Bool) (compareFunc : String → String → List Change)
    (value : String) (diffIndex : Nat) (added removed : Bool)
    (st : ReconcilerState) : List LineInformation × ReconcilerState :=
  getLineRows showLines diffArray disableWordDiff compareFunc diffIndex
    added removed (constructLines value) 0 st

/-- The `diffArray.forEach((chunk, index) => ...)` drive loop of
compute-lines.ts lines 281-286. `rest` is the suffix of `diffArray` starting
at `diffIndex`. -/
def runDiffChunks (showLines : List String) (diffArray : List Change)
    (disableWordDiff : Bool) (compareFunc : String → String → List Change) :
    List Change → Nat → ReconcilerState →
      List LineInformation × ReconcilerState
  | [], _, st => ([], st)
  | c :: rest, diffIndex, st =>
    let p := getLineInformation showLines diffArray disableWordDiff compareFunc
      c.value diffIndex c.added c.removed st
    let q := runDiffChunks showLines diffArray disableWordDiff compareFunc
      rest (diffIndex + 1) p.2
    (p.1 ++ q.1, q.2)

/-- Embeds `computeLineInformation` (compute-lines.ts lines 131-292). The
chunk sequence `diffArray` is the output of the external diff primitive
(`diff.diffLines` / `diff.diffJson`, lines 141-152, out of scope per the
spec); `compareFunc` is the resolved intra-line compare method. -/
def computeLineInformation (diffArray : List Change) (disableWordDiff : Bool)
    (compareFunc : String → String → List Change) (linesOffset : Nat)
    (showLines : List String) : ComputedLineInformation :=
  let p := runDiffChunks showLines diffArray disableWordDiff compareFunc
    diffArray 0
    { leftLineNumber := linesOffset, rightLineNumber := linesOffset,
      counter := 0, diffLines := [], ignoreDiffIndexes := [] }
  { lineInformation := p.1, diffLines := p.2.diffLines }

/-- Embeds `interface Block` (src/unnamed/part_000 lines 4-9). -/
structure Block where
  index : Nat
  startLine : Nat
  endLine : Nat
  lines : Nat
deriving Repr, DecidableEq

/-- Embeds `interface HiddenBlocks` (src/unnamed/part_000 lines 10-13); the
`Record<number, number>` is an association list in insertion order (its keys,
the row indices, are met strictly increasingly, so no key is written twice). -/
structure HiddenBlocks where
  lineBlocks : List (Nat × Nat)
  blocks : List Block
deriving Repr, DecidableEq

/-- The `isDiffLine` test of src/unnamed/part_000 lines 24-28:
`diffLines.some(d => d >= lineIndex - extraLines && d <= lineIndex + extraLines)`.
JavaScript subtraction can go negative, hence the `Int` arithmetic. -/
def isDiffLine (diffLines : List Nat) (extraLines : Nat) (lineIndex : Nat) :
    Bool :=
  diffLines.any fun d =>
    decide ((lineIndex : Int) - (extraLines : Int) ≤ (d : Int)) &&
      decide ((d : Int) ≤ (lineIndex : Int) + (extraLines : Int))

/-- The loop state of `computeHiddenBlocks`. The source mutates the block
object it already pushed into `blocks`; here the currently open block is kept
apart and the final list is `closedBlocks ++ currentBlock.toList`, which is
the same list in the same order with the same final field values. -/
structure HiddenBlocksState where
  newBlockIndex : Nat
  currentBlock : Option Block
  lineBlocks : List (Nat × Nat)
  closedBlocks : List Block
deriving Repr, DecidableEq

/-- One iteration of the `lineInformation.forEach((line, lineIndex) => ...)`
loop of src/unnamed/part_000 lines 23-49 (the body only uses `lineIndex`). -/
def hiddenBlocksStep (diffLines : List Nat) (extraLines : Nat)
    (st : HiddenBlocksState) (lineIndex : Nat) : HiddenBlocksState :=
  if isDiffLine diffLines extraLines lineIndex then
    -- not a block anymore
    { st with closedBlocks := st.closedBlocks ++ st.currentBlock.toList, currentBlock := none }
  else
    match st.currentBlock with
    | none =>
      -- block begins
      { newBlockIndex := st.newBlockIndex + 1,
        currentBlock := some ⟨st.newBlockIndex, lineIndex, lineIndex, 1⟩,
        lineBlocks := st.lineBlocks ++ [(lineIndex, st.newBlockIndex)],
        closedBlocks := st.closedBlocks }
    | some b =>
      -- block continues
      let b1 : Block := { b with endLine := lineIndex, lines := b.lines + 1 }
      { st with currentBlock := some b1, lineBlocks := st.lineBlocks ++ [(lineIndex, b.index)] }

/-- Embeds `computeHiddenBlocks` (src/unnamed/part_000 lines 14-55). -/
def computeHiddenBlocks (lineInformation : List LineInformation)
    (diffLines : List Nat) (extraLines : Nat) : HiddenBlocks :=
  let st := (List.range lineInformation.length).foldl
    (hiddenBlocksStep diffLines extraLines) ⟨0, none, [], []⟩
  { lineBlocks := st.lineBlocks,
    blocks := st.closedBlocks ++ st.currentBlock.toList }

/-- Embeds `enum DiffMethod` (compute-lines.ts lines 13-22). -/
inductive DiffMethod where
  | CHARS
  | WORDS
  | WORDS_WITH_SPACE
  | LINES
  | TRIMMED_LINES
  | SENTENCES
  | CSS
  | JSON
deriving Repr, DecidableEq

/-- The `compareMethod` prop: a named jsdiff method (a string at runtime) or a
caller-supplied compare function. -/
inductive CompareMethodArg where
  | preset (m : DiffMethod)
  | custom
deriving Repr, DecidableEq

/-- The runtime type of an `oldValue` / `newValue` prop: a string or a
structured (non-string) object. -/
inductive InputValue where
  | str (s : String)
  | obj
deriving Repr, DecidableEq

/-- `typeof v === "string"`. -/
def InputValue.isString : InputValue → Bool
  | .str _ => true
  | .obj => false

/-- Embeds the input validation at the top of `render` (src/src/index.tsx lines
655-662), which runs before `renderDiff` (and hence before any row or
diff-line computation): when `compareMethod` is a string other than
`DiffMethod.JSON` and either value is not a string, an `Error` is thrown. -/
def renderInputCheck (compareMethod : CompareMethodArg)
    (oldValue newValue : InputValue) : Except String Unit :=
  match compareMethod with
  | .preset m =>
    if m ≠ DiffMethod.JSON then
      if !oldValue.isString || !newValue.isString then
        .error "\"oldValue\" and \"newValue\" should be strings"
      else .ok ()
    else .ok ()
  | .custom => .ok ()

/-! ### Observables and invariants -/

/-- The left line numbers carried by a row sequence, in row order. -/
def leftNumbers (rows : List LineInformation) : List Nat :=
  rows.filterMap fun r => r.left.lineNumber

/-- The right line numbers carried by a row sequence, in row order. -/
def rightNumbers (rows : List LineInformation) : List Nat :=
  rows.filterMap fun r => r.right.lineNumber

/-- Well-formed change sequences: no change object carries both flags
(jsdiff change objects are added, removed, or unchanged — spec §3). -/
def WFChanges (l : List Change) : Prop :=
  ∀ c ∈ l, ¬(c.added = true ∧ c.removed = true)

/-- Every ignore-list entry points at an added chunk of the diff array; this is
what makes the lookahead's recursive call always return a row. -/
def IgnoreInv (diffArray : List Change) (ig : List (Nat × Nat)) : Prop :=
  ∀ p ∈ ig, ∃ c, diffArray.get? p.1 = some c ∧ c.added = true

theorem contains_eq_false_iff {α : Type} [DecidableEq α] (l : List α) (a : α) :
    l.contains a = false ↔ a ∉ l := by
  simp [List.contains]

/-- `finishRow` emits exactly the row it is given, bumps the counter, appends
only copies of the current counter to the diff lines, and touches nothing
else; with no show-lines tokens it appends at most one fresh copy. -/
theorem finishRow_spec (showLines : List String) (left right : DiffInformation)
    (cac : Bool) (st : ReconcilerState) :
    (finishRow showLines left right cac st).1 = some ⟨left, right⟩ ∧
    (finishRow showLines left right cac st).2.leftLineNumber = st.leftLineNumber ∧
    (finishRow showLines left right cac st).2.rightLineNumber = st.rightLineNumber ∧
    (finishRow showLines left right cac st).2.counter = st.counter + 1 ∧
    (finishRow showLines left right cac st).2.ignoreDiffIndexes = st.ignoreDiffIndexes ∧
    (∃ n, (finishRow showLines left right cac st).2.diffLines =
      st.diffLines ++ List.replicate n st.counter) ∧
    (showLines = [] →
      (finishRow showLines left right cac st).2.diffLines = st.diffLines ∨
      ((finishRow showLines left right cac st).2.diffLines =
        st.diffLines ++ [st.counter] ∧ st.counter ∉ st.diffLines)) := by
  simp only [finishRow]
  split_ifs with h1 h2 h3
  · refine ⟨by trivial, by trivial, by trivial, by trivial, by trivial,
      ⟨2, by simp [List.replicate]⟩, ?_⟩
    intro hs; subst hs; simp at h2
  · refine ⟨by trivial, by trivial, by trivial, by trivial, by trivial,
      ⟨1, by simp [List.replicate]⟩, ?_⟩
    intro hs
    right
    have hc := ((Bool.and_eq_true _ _).mp h1).2
    simp only [Bool.not_eq_true'] at hc
    exact ⟨by trivial, (contains_eq_false_iff _ _).mp hc⟩
  · refine ⟨by trivial, by trivial, by trivial, by trivial, by trivial,
      ⟨1, by simp [List.replicate]⟩, ?_⟩
    intro hs; subst hs; simp at h3
  · exact ⟨by trivial, by trivial, by trivial, by trivial, by trivial,
      ⟨0, by simp⟩, fun _ => Or.inl (by trivial)⟩

/-- `lookaheadLine`, when the ignore list does not hit, returns the added-side
object with the bumped right line number, bumps only the right counter, and
appends only copies of the current counter to the diff lines (none when there
are no show-lines tokens). -/
theorem lookaheadLine_spec (showLines : List String) (diffIndex : Nat)
    (line : String) (st : ReconcilerState)
    (h : st.ignoreDiffIndexes.contains (diffIndex, 0) = false) :
    ∃ ri st2, lookaheadLine showLines diffIndex line st = some (ri, st2) ∧
      ri.value = some (DiffValue.str line) ∧
      ri.lineNumber = some (st.rightLineNumber + 1) ∧
      ri.type = some DiffType.ADDED ∧
      st2.leftLineNumber = st.leftLineNumber ∧
      st2.rightLineNumber = st.rightLineNumber + 1 ∧
      st2.counter = st.counter ∧
      st2.ignoreDiffIndexes = st.ignoreDiffIndexes ∧
      (∃ n, st2.diffLines = st.diffLines ++ List.replicate n st.counter) ∧
      (showLines = [] → st2.diffLines = st.diffLines) := by
  unfold lookaheadLine
  rw [h]
  simp only [Bool.false_eq_true, if_false]
  split
  case isTrue h2 =>
    refine ⟨_, _, rfl, rfl, rfl, rfl, rfl, rfl, rfl, rfl,
      ⟨1, by simp [List.replicate]⟩, ?_⟩
    intro hs; subst hs; simp at h2
  case isFalse h2 =>
    exact ⟨_, _, rfl, rfl, rfl, rfl, rfl, rfl, rfl, rfl, ⟨0, by simp⟩, fun _ => rfl⟩

/-- Unfolding of a successful `lookaheadTarget`: the next chunk exists, is
added, and holds a nonempty line at this index. -/
theorem lookaheadTarget_some {diffArray : List Change} {diffIndex lineIndex : Nat}
    {nl : String} (h : lookaheadTarget diffArray diffIndex lineIndex = some nl) :
    ∃ nd, diffArray.get? (diffIndex + 1) = some nd ∧ nd.added = true ∧
      (constructLines nd.value).get? lineIndex = some nl ∧ nl ≠ "" := by
  unfold lookaheadTarget at h
  split at h
  case h_1 nd hnd =>
    split at h
    case isTrue ha =>
      split at h
      case h_1 nl' hnl =>
        split at h
        case isTrue => exact absurd h (by simp)
        case isFalse hne =>
          obtain rfl : nl' = nl := by simpa using h
          exact ⟨nd, hnd, ha, hnl, hne⟩
      case h_2 => exact absurd h (by simp)
    case isFalse => exact absurd h (by simp)
  case h_2 => exact absurd h (by simp)

/-! ### Branch equations for `getLineRow` -/

theorem getLineRow_eq_ignored (showLines : List String) (diffArray : List Change)
    (dwd : Bool) (f : String → String → List Change) (diffIndex : Nat)
    (added removed : Bool) (line : String) (lineIndex : Nat)
    (st : ReconcilerState)
    (h0 : st.ignoreDiffIndexes.contains (diffIndex, lineIndex) = true) :
    getLineRow showLines diffArray dwd f diffIndex added removed line lineIndex st
      = (none, st) := by
  unfold getLineRow
  rw [h0]
  simp

theorem getLineRow_eq_unchanged (showLines : List String) (diffArray : List Change)
    (dwd : Bool) (f : String → String → List Change) (diffIndex : Nat)
    (line : String) (lineIndex : Nat) (st : ReconcilerState)
    (h0 : st.ignoreDiffIndexes.contains (diffIndex, lineIndex) = false) :
    getLineRow showLines diffArray dwd f diffIndex false false line lineIndex st
      = finishRow showLines
          ⟨some (DiffValue.str line), some (st.leftLineNumber + 1),
            some DiffType.DEFAULT⟩
          ⟨some (DiffValue.str line), some (st.rightLineNumber + 1),
            some DiffType.DEFAULT⟩
          false
          { st with leftLineNumber := st.leftLineNumber + 1, rightLineNumber := st.rightLineNumber + 1 } := by
  unfold getLineRow
  rw [h0]
  simp

theorem getLineRow_eq_added (showLines : List String) (diffArray : List Change)
    (dwd : Bool) (f : String → String → List Change) (diffIndex : Nat)
    (line : String) (lineIndex : Nat) (st : ReconcilerState)
    (h0 : st.ignoreDiffIndexes.contains (diffIndex, lineIndex) = false) :
    getLineRow showLines diffArray dwd f diffIndex true false line lineIndex st
      = finishRow showLines {}
          ⟨some (DiffValue.str line), some (st.rightLineNumber + 1),
            some DiffType.ADDED⟩
          true { st with rightLineNumber := st.rightLineNumber + 1 } := by
  unfold getLineRow
  rw [h0]
  simp

/-- The `left` object built at compute-lines.ts lines 185-188. -/
def removedLeft (line : String) (l : Nat) : DiffInformation :=
  ⟨some (DiffValue.str (if line = "" then " " else line)), some (l + 1),
    some DiffType.REMOVED⟩

theorem getLineRow_eq_removed_pure (showLines : List String)
    (diffArray : List Change) (dwd : Bool)
    (f : String → String → List Change) (diffIndex : Nat) (added : Bool)
    (line : String) (lineIndex : Nat) (st : ReconcilerState)
    (h0 : st.ignoreDiffIndexes.contains (diffIndex, lineIndex) = false)
    (hlt : lookaheadTarget diffArray diffIndex lineIndex = none) :
    getLineRow showLines diffArray dwd f diffIndex added true line lineIndex st
      = finishRow showLines (removedLeft line st.leftLineNumber) {} true
          { st with leftLineNumber := st.leftLineNumber + 1 } := by
  unfold getLineRow
  rw [h0, hlt]
  simp [removedLeft]

theorem getLineRow_eq_removed_merge (showLines : List String)
    (diffArray : List Change) (dwd : Bool)
    (f : String → String → List Change) (diffIndex : Nat) (added : Bool)
    (line nl : String) (lineIndex : Nat) (st : ReconcilerState)
    (ri : DiffInformation) (st2 : ReconcilerState)
    (h0 : st.ignoreDiffIndexes.contains (diffIndex, lineIndex) = false)
    (hlt : lookaheadTarget diffArray diffIndex lineIndex = some nl)
    (hla : lookaheadLine showLines diffIndex nl
      { st with leftLineNumber := st.leftLineNumber + 1 } = some (ri, st2)) :
    getLineRow showLines diffArray dwd f diffIndex added true line lineIndex st
      = mergeRemoved showLines dwd f diffIndex lineIndex line nl
          (removedLeft line st.leftLineNumber) ri st2 := by
  unfold getLineRow
  rw [h0, hlt]
  simp only [Bool.false_eq_true, if_false, Bool.or_true, if_true]
  rw [hla]
  simp [removedLeft]

theorem getLineRow_eq_removed_skip (showLines : List String)
    (diffArray : List Change) (dwd : Bool)
    (f : String → String → List Change) (diffIndex : Nat) (added : Bool)
    (line nl : String) (lineIndex : Nat) (st : ReconcilerState)
    (h0 : st.ignoreDiffIndexes.contains (diffIndex, lineIndex) = false)
    (hlt : lookaheadTarget diffArray diffIndex lineIndex = some nl)
    (hla : lookaheadLine showLines diffIndex nl
      { st with leftLineNumber := st.leftLineNumber + 1 } = none) :
    getLineRow showLines diffArray dwd f diffIndex added true line lineIndex st
      = (none, { st with leftLineNumber := st.leftLineNumber + 1 }) := by
  unfold getLineRow
  rw [h0, hlt]
  simp only [Bool.false_eq_true, if_false, Bool.or_true, if_true]
  rw [hla]

theorem mergeRemoved_eq_same (showLines : List String) (dwd : Bool)
    (f : String → String → List Change) (diffIndex lineIndex : Nat)
    (line nl : String) (left0 ri : DiffInformation) (st : ReconcilerState)
    (h : left0.value = ri.value) :
    mergeRemoved showLines dwd f diffIndex lineIndex line nl left0 ri st
      = finishRow showLines { left0 with type := some DiffType.DEFAULT }
          ⟨ri.value, ri.lineNumber, some DiffType.DEFAULT⟩ false
          { st with ignoreDiffIndexes := st.ignoreDiffIndexes ++ [(diffIndex + 1, lineIndex)] } := by
  unfold mergeRemoved
  rw [if_pos h]

theorem mergeRemoved_eq_plain (showLines : List String)
    (f : String → String → List Change) (diffIndex lineIndex : Nat)
    (line nl : String) (left0 ri : DiffInformation) (st : ReconcilerState)
    (h : ¬(left0.value = ri.value)) :
    mergeRemoved showLines true f diffIndex lineIndex line nl left0 ri st
      = finishRow showLines left0 ⟨ri.value, ri.lineNumber, ri.type⟩ true
          { st with ignoreDiffIndexes := st.ignoreDiffIndexes ++ [(diffIndex + 1, lineIndex)] } := by
  unfold mergeRemoved
  rw [if_neg h]
  simp

theorem mergeRemoved_eq_frags (showLines : List String)
    (f : String → String → List Change) (diffIndex lineIndex : Nat)
    (line nl : String) (left0 ri : DiffInformation) (st : ReconcilerState)
    (h : ¬(left0.value = ri.value)) :
    mergeRemoved showLines false f diffIndex lineIndex line nl left0 ri st
      = finishRow showLines
          { left0 with value := some (DiffValue.frags (computeDiff (f line nl)).1) }
          ⟨some (DiffValue.frags (computeDiff (f line nl)).2), ri.lineNumber, ri.type⟩
          true
          { st with ignoreDiffIndexes := st.ignoreDiffIndexes ++ [(diffIndex + 1, lineIndex)] } := by
  unfold mergeRemoved
  rw [if_neg h]
  simp

/-- Common consequences of a merged modification row, whichever of the three
value branches is taken. -/
theorem mergeRemoved_spec (showLines : List String) (dwd : Bool)
    (f : String → String → List Change) (diffIndex lineIndex : Nat)
    (line nl : String) (left0 ri : DiffInformation) (st : ReconcilerState) :
    ∃ row,
      (mergeRemoved showLines dwd f diffIndex lineIndex line nl left0 ri st).1
        = some row ∧
      row.left.lineNumber = left0.lineNumber ∧
      row.right.lineNumber = ri.lineNumber ∧
      (left0.value ≠ none → row.left.value ≠ none) ∧
      (mergeRemoved showLines dwd f diffIndex lineIndex line nl left0 ri st).2.leftLineNumber
        = st.leftLineNumber ∧
      (mergeRemoved showLines dwd f diffIndex lineIndex line nl left0 ri st).2.rightLineNumber
        = st.rightLineNumber ∧
      (mergeRemoved showLines dwd f diffIndex lineIndex line nl left0 ri st).2.counter
        = st.counter + 1 ∧
      (mergeRemoved showLines dwd f diffIndex lineIndex line nl left0 ri st).2.ignoreDiffIndexes
        = st.ignoreDiffIndexes ++ [(diffIndex + 1, lineIndex)] ∧
      (∃ n, (mergeRemoved showLines dwd f diffIndex lineIndex line nl left0 ri st).2.diffLines
        = st.diffLines ++ List.replicate n st.counter) ∧
      (showLines = [] →
        (mergeRemoved showLines dwd f diffIndex lineIndex line nl left0 ri st).2.diffLines
          = st.diffLines ∨
        ((mergeRemoved showLines dwd f diffIndex lineIndex line nl left0 ri st).2.diffLines
          = st.diffLines ++ [st.counter] ∧ st.counter ∉ st.diffLines)) := by
  by_cases h : left0.value = ri.value
  · rw [mergeRemoved_eq_same showLines dwd f diffIndex lineIndex line nl left0 ri st h]
    obtain ⟨e1, e2, e3, e4, e5, e6, e7⟩ := finishRow_spec showLines
      { left0 with type := some DiffType.DEFAULT }
      ⟨ri.value, ri.lineNumber, some DiffType.DEFAULT⟩ false
      { st with ignoreDiffIndexes := st.ignoreDiffIndexes ++ [(diffIndex + 1, lineIndex)] }
    exact ⟨_, e1, rfl, rfl, fun hv => hv, e2, e3, e4, e5, e6, e7⟩
  · cases dwd
    case neg.false =>
      rw [mergeRemoved_eq_frags showLines f diffIndex lineIndex line nl left0 ri st h]
      obtain ⟨e1, e2, e3, e4, e5, e6, e7⟩ := finishRow_spec showLines
        { left0 with value := some (DiffValue.frags (computeDiff (f line nl)).1) }
        ⟨some (DiffValue.frags (computeDiff (f line nl)).2), ri.lineNumber, ri.type⟩
        true
        { st with ignoreDiffIndexes := st.ignoreDiffIndexes ++ [(diffIndex + 1, lineIndex)] }
      exact ⟨_, e1, rfl, rfl, fun _ => by simp, e2, e3, e4, e5, e6, e7⟩
    case neg.true =>
      rw [mergeRemoved_eq_plain showLines f diffIndex lineIndex line nl left0 ri st h]
      obtain ⟨e1, e2, e3, e4, e5, e6, e7⟩ := finishRow_spec showLines left0
        ⟨ri.value, ri.lineNumber, ri.type⟩ true
        { st with ignoreDiffIndexes := st.ignoreDiffIndexes ++ [(diffIndex + 1, lineIndex)] }
      exact ⟨_, e1, rfl, rfl, fun hv => hv, e2, e3, e4, e5, e6, e7⟩

/-- The per-line step lemma: how one map-callback invocation (main pass)
changes the reconciler state and what the emitted row looks like. Needs the
chunk at `diffIndex` to match the passed flags and to be well formed, so that
the lookahead's recursive call can never be skipped by the ignore list. -/
theorem getLineRow_spec (showLines : List String) (diffArray : List Change)
    (dwd : Bool) (f : String → String → List Change) (diffIndex : Nat)
    (added removed : Bool) (line : String) (lineIndex : Nat)
    (st : ReconcilerState) (cur : Change)
    (hIg : IgnoreInv diffArray st.ignoreDiffIndexes)
    (hcur : diffArray.get? diffIndex = some cur)
    (ha : cur.added = added) (hr : cur.removed = removed)
    (hwf : ¬(added = true ∧ removed = true)) :
    ∀ rowOpt st',
      getLineRow showLines diffArray dwd f diffIndex added removed line lineIndex st
        = (rowOpt, st') →
      IgnoreInv diffArray st'.ignoreDiffIndexes ∧
      (rowOpt = none → st' = st) ∧
      (∀ row, rowOpt = some row →
        st'.counter = st.counter + 1 ∧
        ((row.left.lineNumber = some (st.leftLineNumber + 1) ∧
            st'.leftLineNumber = st.leftLineNumber + 1) ∨
          (row.left.lineNumber = none ∧ st'.leftLineNumber = st.leftLineNumber)) ∧
        ((row.right.lineNumber = some (st.rightLineNumber + 1) ∧
            st'.rightLineNumber = st.rightLineNumber + 1) ∨
          (row.right.lineNumber = none ∧ st'.rightLineNumber = st.rightLineNumber)) ∧
        ¬(row.left.value = none ∧ row.right.value = none) ∧
        (∃ n, st'.diffLines = st.diffLines ++ List.replicate n st.counter) ∧
        (showLines = [] → st'.diffLines = st.diffLines ∨
          (st'.diffLines = st.diffLines ++ [st.counter] ∧
            st.counter ∉ st.diffLines))) := by
  intro rowOpt st' heq
  cases h0 : st.ignoreDiffIndexes.contains (diffIndex, lineIndex) with
  | true =>
    rw [getLineRow_eq_ignored showLines diffArray dwd f diffIndex added removed
      line lineIndex st h0] at heq
    injection heq with hA hB
    subst hA; subst hB
    exact ⟨hIg, fun _ => rfl, fun row hrow => by cases hrow⟩
  | false =>
    cases removed with
    | true =>
      have hadd : added = false := by
        cases hval : added
        · rfl
        · exact absurd ⟨hval, rfl⟩ hwf
      subst hadd
      cases hlt : lookaheadTarget diffArray diffIndex lineIndex with
      | none =>
        rw [getLineRow_eq_removed_pure showLines diffArray dwd f diffIndex
          false line lineIndex st h0 hlt] at heq
        obtain ⟨e1, e2, e3, e4, e5, e6, e7⟩ := finishRow_spec showLines
          (removedLeft line st.leftLineNumber) {} true
          { st with leftLineNumber := st.leftLineNumber + 1 }
        rw [heq] at e1 e2 e3 e4 e5 e6 e7
        refine ⟨?_, ?_, ?_⟩
        · rw [e5]; exact hIg
        · intro hnone; rw [hnone] at e1; cases e1
        · intro row hrow
          rw [hrow] at e1
          injection e1 with e1
          subst e1
          refine ⟨e4, Or.inl ⟨rfl, e2⟩, Or.inr ⟨rfl, e3⟩, ?_, e6, e7⟩
          intro ⟨hv, _⟩
          simp [removedLeft] at hv
      | some nl =>
        have hl0 : st.ignoreDiffIndexes.contains (diffIndex, 0) = false := by
          by_contra hc
          have hmem : (diffIndex, 0) ∈ st.ignoreDiffIndexes := by
            have := Bool.not_eq_false _ |>.mp hc
            simpa [List.contains] using this
          obtain ⟨c, hcget, hcadd⟩ := hIg (diffIndex, 0) hmem
          rw [hcur] at hcget
          injection hcget with hcget
          subst hcget
          rw [ha] at hcadd
          cases hcadd
        obtain ⟨ri, st2, hla, hriv, hrin, hrit, hs1, hs2, hs3, hs4, hs5, hs6⟩ :=
          lookaheadLine_spec showLines diffIndex nl
            { st with leftLineNumber := st.leftLineNumber + 1 } hl0
        rw [getLineRow_eq_removed_merge showLines diffArray dwd f diffIndex
          false line nl lineIndex st ri st2 h0 hlt hla] at heq
        obtain ⟨row, m1, m2, m3, m4, m5, m6, m7, m8, m9, m10⟩ :=
          mergeRemoved_spec showLines dwd f diffIndex lineIndex line nl
            (removedLeft line st.leftLineNumber) ri st2
        have hfst : (mergeRemoved showLines dwd f diffIndex lineIndex line nl
            (removedLeft line st.leftLineNumber) ri st2).1 = rowOpt := by rw [heq]
        have hsnd : (mergeRemoved showLines dwd f diffIndex lineIndex line nl
            (removedLeft line st.leftLineNumber) ri st2).2 = st' := by rw [heq]
        rw [hfst] at m1
        rw [hsnd] at m5 m6 m7 m8 m9 m10
        refine ⟨?_, ?_, ?_⟩
        · rw [m8, hs4]
          intro p hp
          rcases List.mem_append.mp hp with hp | hp
          · exact hIg p hp
          · obtain ⟨nd, hnd, hndadd, _, _⟩ := lookaheadTarget_some hlt
            have hp' : p = (diffIndex + 1, lineIndex) := by simpa using hp
            subst hp'
            exact ⟨nd, hnd, hndadd⟩
        · intro hnone; rw [hnone] at m1; cases m1
        · intro row' hrow'
          rw [hrow'] at m1
          injection m1 with m1
          subst m1
          refine ⟨?_, ?_, ?_, ?_, ?_, ?_⟩
          · rw [m7, hs3]
          · left
            constructor
            · rw [m2]; rfl
            · rw [m5, hs1]
          · left
            constructor
            · rw [m3, hrin]
            · rw [m6, hs2]
          · intro ⟨hv, _⟩
            exact m4 (by simp [removedLeft]) hv
          · obtain ⟨n1, hn1⟩ := hs5
            obtain ⟨n2, hn2⟩ := m9
            refine ⟨n1 + n2, ?_⟩
            rw [hn2, hn1, hs3, List.append_assoc, ← List.replicate_add]
          · intro hsnil
            have hdl2 : st2.diffLines = st.diffLines := hs6 hsnil
            rcases m10 hsnil with hm | ⟨hm, hfresh⟩
            · left; rw [hm, hdl2]
            · right
              constructor
              · rw [hm, hdl2, hs3]
              · rw [hdl2, hs3] at hfresh; exact hfresh
    | false =>
      cases added with
      | false =>
        rw [getLineRow_eq_unchanged showLines diffArray dwd f diffIndex line
          lineIndex st h0] at heq
        obtain ⟨e1, e2, e3, e4, e5, e6, e7⟩ := finishRow_spec showLines
          ⟨some (DiffValue.str line), some (st.leftLineNumber + 1), some DiffType.DEFAULT⟩
          ⟨some (DiffValue.str line), some (st.rightLineNumber + 1), some DiffType.DEFAULT⟩
          false
          { st with leftLineNumber := st.leftLineNumber + 1, rightLineNumber := st.rightLineNumber + 1 }
        rw [heq] at e1 e2 e3 e4 e5 e6 e7
        refine ⟨?_, ?_, ?_⟩
        · rw [e5]; exact hIg
        · intro hnone; rw [hnone] at e1; cases e1
        · intro row hrow
          rw [hrow] at e1
          injection e1 with e1
          subst e1
          refine ⟨e4, Or.inl ⟨rfl, e2⟩, Or.inl ⟨rfl, e3⟩, ?_, e6, e7⟩
          intro ⟨hv, _⟩
          cases hv
      | true =>
        rw [getLineRow_eq_added showLines diffArray dwd f diffIndex line
          lineIndex st h0] at heq
        obtain ⟨e1, e2, e3, e4, e5, e6, e7⟩ := finishRow_spec showLines {}
          ⟨some (DiffValue.str line), some (st.rightLineNumber + 1), some DiffType.ADDED⟩
          true { st with rightLineNumber := st.rightLineNumber + 1 }
        rw [heq] at e1 e2 e3 e4 e5 e6 e7
        refine ⟨?_, ?_, ?_⟩
        · rw [e5]; exact hIg
        · intro hnone; rw [hnone] at e1; cases e1
        · intro row hrow
          rw [hrow] at e1
          injection e1 with e1
          subst e1
          refine ⟨e4, Or.inr ⟨rfl, e2⟩, Or.inl ⟨rfl, e3⟩, ?_, e6, e7⟩
          intro ⟨_, hv⟩
          cases hv

theorem pairwiseLe_append_replicate {dl : List Nat} {c : Nat} (n : Nat)
    (h1 : List.Pairwise (· ≤ ·) dl) (h2 : ∀ d ∈ dl, d ≤ c) :
    List.Pairwise (· ≤ ·) (dl ++ List.replicate n c) ∧
      ∀ d ∈ dl ++ List.replicate n c, d ≤ c := by
  constructor
  · rw [List.pairwise_append]
    refine ⟨h1, List.pairwise_replicate.mpr (Or.inr le_rfl), ?_⟩
    intro a ha b hb
    rw [List.eq_of_mem_replicate hb]
    exact h2 a ha
  · intro d hd
    rcases List.mem_append.mp hd with hd | hd
    · exact h2 d hd
    · rw [List.eq_of_mem_replicate hd]

theorem pairwiseLt_append_single {dl : List Nat} {c : Nat}
    (h1 : List.Pairwise (· < ·) dl) (h2 : ∀ d ∈ dl, d < c) :
    List.Pairwise (· < ·) (dl ++ [c]) ∧ ∀ d ∈ dl ++ [c], d < c + 1 := by
  constructor
  · rw [List.pairwise_append]
    refine ⟨h1, List.pairwise_singleton _ _, ?_⟩
    intro a ha b hb
    rw [List.mem_singleton.mp hb]
    exact h2 a ha
  · intro d hd
    rcases List.mem_append.mp hd with hd | hd
    · exact Nat.lt_succ_of_lt (h2 d hd)
    · rw [List.mem_singleton.mp hd]
      exact Nat.lt_succ_self c

/-- Lift of `getLineRow_spec` over all the lines of one chunk. -/
theorem getLineRows_spec (showLines : List String) (diffArray : List Change)
    (dwd : Bool) (f : String → String → List Change) (diffIndex : Nat)
    (added removed : Bool) (cur : Change)
    (hcur : diffArray.get? diffIndex = some cur)
    (ha : cur.added = added) (hr : cur.removed = removed)
    (hwf : ¬(added = true ∧ removed = true)) :
    ∀ (lines : List String) (lineIndex : Nat) (st : ReconcilerState),
      IgnoreInv diffArray st.ignoreDiffIndexes →
      ∀ rows st',
        getLineRows showLines diffArray dwd f diffIndex added removed lines
          lineIndex st = (rows, st') →
        IgnoreInv diffArray st'.ignoreDiffIndexes ∧
        st'.counter = st.counter + rows.length ∧
        (∃ k, st'.leftLineNumber = st.leftLineNumber + k ∧
          leftNumbers rows = List.range' (st.leftLineNumber + 1) k) ∧
        (∃ k, st'.rightLineNumber = st.rightLineNumber + k ∧
          rightNumbers rows = List.range' (st.rightLineNumber + 1) k) ∧
        (∀ r ∈ rows, ¬(r.left.value = none ∧ r.right.value = none)) ∧
        ((List.Pairwise (· ≤ ·) st.diffLines ∧ ∀ d ∈ st.diffLines, d ≤ st.counter) →
          (List.Pairwise (· ≤ ·) st'.diffLines ∧ ∀ d ∈ st'.diffLines, d ≤ st'.counter)) ∧
        (showLines = [] →
          (List.Pairwise (· < ·) st.diffLines ∧ ∀ d ∈ st.diffLines, d < st.counter) →
          (List.Pairwise (· < ·) st'.diffLines ∧ ∀ d ∈ st'.diffLines, d < st'.counter)) := by
  intro lines
  induction lines with
  | nil =>
    intro lineIndex st hIg rows st' heq
    unfold getLineRows at heq
    injection heq with hA hB
    subst hA; subst hB
    refine ⟨hIg, by simp, ⟨0, by simp [leftNumbers]⟩, ⟨0, by simp [rightNumbers]⟩,
      by simp, fun h => h, fun _ h => h⟩
  | cons line rest ih =>
    intro lineIndex st hIg rows st' heq
    unfold getLineRows at heq
    obtain ⟨c1, c2, c3⟩ := getLineRow_spec showLines diffArray dwd f diffIndex
      added removed line lineIndex st cur hIg hcur ha hr hwf
      (getLineRow showLines diffArray dwd f diffIndex added removed line
        lineIndex st).1
      (getLineRow showLines diffArray dwd f diffIndex added removed line
        lineIndex st).2 rfl
    obtain ⟨d1, d2, d3, d4, d5, d6, d7⟩ := ih (lineIndex + 1)
      (getLineRow showLines diffArray dwd f diffIndex added removed line
        lineIndex st).2 c1
      (getLineRows showLines diffArray dwd f diffIndex added removed rest
        (lineIndex + 1)
        (getLineRow showLines diffArray dwd f diffIndex added removed line
          lineIndex st).2).1
      (getLineRows showLines diffArray dwd f diffIndex added removed rest
        (lineIndex + 1)
        (getLineRow showLines diffArray dwd f diffIndex added removed line
          lineIndex st).2).2 rfl
    set p := getLineRow showLines diffArray dwd f diffIndex added removed line
      lineIndex st with hp
    set q := getLineRows showLines diffArray dwd f diffIndex added removed rest
      (lineIndex + 1) p.2 with hq
    have hrows : rows = p.1.toList ++ q.1 := by
      have := congrArg Prod.fst heq
      simp at this
      exact this.symm
    have hst' : st' = q.2 := by
      have := congrArg Prod.snd heq
      simp at this
      exact this.symm
    subst hrows; subst hst'
    cases hpr : p.1 with
    | none =>
      have hpst : p.2 = st := c2 hpr
      rw [hpst] at d2 d3 d4 d6 d7
      simp only [hpr, Option.toList_none, List.nil_append]
      exact ⟨d1, d2, d3, d4, d5, d6, d7⟩
    | some row =>
      obtain ⟨e1, e2, e3, e4, e5, e6⟩ := c3 row hpr
      simp only [hpr, Option.toList_some, List.singleton_append]
      refine ⟨d1, ?_, ?_, ?_, ?_, ?_, ?_⟩
      · rw [d2, e1]
        simp only [List.length_cons]
        omega
      · obtain ⟨k, hk1, hk2⟩ := d3
        rcases e2 with ⟨hln, hst⟩ | ⟨hln, hst⟩
        · refine ⟨k + 1, by omega, ?_⟩
          simp only [leftNumbers, List.filterMap_cons, hln]
          rw [show List.filterMap (fun r => r.left.lineNumber) q.1
            = leftNumbers q.1 from rfl, hk2, hst, List.range'_succ]
        · refine ⟨k, by omega, ?_⟩
          simp only [leftNumbers, List.filterMap_cons, hln]
          rw [show List.filterMap (fun r => r.left.lineNumber) q.1
            = leftNumbers q.1 from rfl, hk2, hst]
      · obtain ⟨k, hk1, hk2⟩ := d4
        rcases e3 with ⟨hln, hst⟩ | ⟨hln, hst⟩
        · refine ⟨k + 1, by omega, ?_⟩
          simp only [rightNumbers, List.filterMap_cons, hln]
          rw [show List.filterMap (fun r => r.right.lineNumber) q.1
            = rightNumbers q.1 from rfl, hk2, hst, List.range'_succ]
        · refine ⟨k, by omega, ?_⟩
          simp only [rightNumbers, List.filterMap_cons, hln]
          rw [show List.filterMap (fun r => r.right.lineNumber) q.1
            = rightNumbers q.1 from rfl, hk2, hst]
      · intro r hr2
        rcases List.mem_cons.mp hr2 with hr2 | hr2
        · subst hr2; exact e4
        · exact d5 r hr2
      · intro ⟨hi1, hi2⟩
        obtain ⟨n, hn⟩ := e5
        have step := pairwiseLe_append_replicate n hi1 hi2
        rw [← hn] at step
        refine d6 ⟨step.1, ?_⟩
        intro d hd
        rw [e1]
        exact Nat.le_succ_of_le (step.2 d hd)
      · intro hsnil
        intro ⟨hi1, hi2⟩
        rcases e6 hsnil with hdl | ⟨hdl, _⟩
        · refine d7 hsnil ⟨by rw [hdl]; exact hi1, ?_⟩
          intro d hd
          rw [hdl] at hd
          rw [e1]
          exact Nat.lt_succ_of_lt (hi2 d hd)
        · have step := pairwiseLt_append_single hi1 hi2
          rw [← hdl] at step
          refine d7 hsnil ⟨step.1, ?_⟩
          intro d hd
          rw [e1]
          exact step.2 d hd

/-- Lift of `getLineRows_spec` over the whole `forEach` drive loop. `rest`
must be the suffix of `diffArray` from `diffIndex` on, so that the flags passed
for each chunk are those of `diffArray[diffIndex]`. -/
theorem runDiffChunks_spec (showLines : List String) (diffArray : List Change)
    (dwd : Bool) (f : String → String → List Change)
    (hwf : WFChanges diffArray) :
    ∀ (rest : List Change) (diffIndex : Nat) (st : ReconcilerState),
      rest = diffArray.drop diffIndex →
      IgnoreInv diffArray st.ignoreDiffIndexes →
      ∀ rows st',
        runDiffChunks showLines diffArray dwd f rest diffIndex st = (rows, st') →
        IgnoreInv diffArray st'.ignoreDiffIndexes ∧
        st'.counter = st.counter + rows.length ∧
        (∃ k, st'.leftLineNumber = st.leftLineNumber + k ∧
          leftNumbers rows = List.range' (st.leftLineNumber + 1) k) ∧
        (∃ k, st'.rightLineNumber = st.rightLineNumber + k ∧
          rightNumbers rows = List.range' (st.rightLineNumber + 1) k) ∧
        (∀ r ∈ rows, ¬(r.left.value = none ∧ r.right.value = none)) ∧
        ((List.Pairwise (· ≤ ·) st.diffLines ∧ ∀ d ∈ st.diffLines, d ≤ st.counter) →
          (List.Pairwise (· ≤ ·) st'.diffLines ∧ ∀ d ∈ st'.diffLines, d ≤ st'.counter)) ∧
        (showLines = [] →
          (List.Pairwise (· < ·) st.diffLines ∧ ∀ d ∈ st.diffLines, d < st.counter) →
          (List.Pairwise (· < ·) st'.diffLines ∧ ∀ d ∈ st'.diffLines, d < st'.counter)) := by
  intro rest
  induction rest with
  | nil =>
    intro diffIndex st hdrop hIg rows st' heq
    unfold runDiffChunks at heq
    injection heq with hA hB
    subst hA; subst hB
    refine ⟨hIg, by simp, ⟨0, by simp [leftNumbers]⟩, ⟨0, by simp [rightNumbers]⟩,
      by simp, fun h => h, fun _ h => h⟩
  | cons c rest' ih =>
    intro diffIndex st hdrop hIg rows st' heq
    unfold runDiffChunks at heq
    have hcur : diffArray.get? diffIndex = some c := by
      have h1 : (diffArray.drop diffIndex).get? 0 = diffArray.get? (diffIndex + 0) :=
        List.get?_drop diffArray diffIndex 0
      rw [← hdrop] at h1
      simpa using h1.symm
    have hcmem : c ∈ diffArray := by
      have : c ∈ diffArray.drop diffIndex := by rw [← hdrop]; exact List.mem_cons_self c rest'
      exact List.mem_of_mem_drop this
    have hdrop' : rest' = diffArray.drop (diffIndex + 1) := by
      have h1 : List.drop 1 (diffArray.drop diffIndex) = diffArray.drop (diffIndex + 1) :=
        List.drop_drop 1 diffIndex diffArray
      rw [← hdrop] at h1
      simpa using h1
    obtain ⟨c1, c2, c3, c4, c5, c6, c7⟩ := getLineRows_spec showLines diffArray
      dwd f diffIndex c.added c.removed c hcur rfl rfl (hwf c hcmem)
      (constructLines c.value) 0 st hIg
      (getLineInformation showLines diffArray dwd f c.value diffIndex c.added
        c.removed st).1
      (getLineInformation showLines diffArray dwd f c.value diffIndex c.added
        c.removed st).2 rfl
    obtain ⟨d1, d2, d3, d4, d5, d6, d7⟩ := ih (diffIndex + 1)
      (getLineInformation showLines diffArray dwd f c.value diffIndex c.added
        c.removed st).2 hdrop' c1
      (runDiffChunks showLines diffArray dwd f rest' (diffIndex + 1)
        (getLineInformation showLines diffArray dwd f c.value diffIndex c.added
          c.removed st).2).1
      (runDiffChunks showLines diffArray dwd f rest' (diffIndex + 1)
        (getLineInformation showLines diffArray dwd f c.value diffIndex c.added
          c.removed st).2).2 rfl
    set p := getLineInformation showLines diffArray dwd f c.value diffIndex
      c.added c.removed st with hp
    set q := runDiffChunks showLines diffArray dwd f rest' (diffIndex + 1) p.2
      with hq
    have hrows : rows = p.1 ++ q.1 := by
      have := congrArg Prod.fst heq
      simp at this
      exact this.symm
    have hst' : st' = q.2 := by
      have := congrArg Prod.snd heq
      simp at this
      exact this.symm
    subst hrows; subst hst'
    refine ⟨d1, ?_, ?_, ?_, ?_, fun h => d6 (c6 h), fun hs h => d7 hs (c7 hs h)⟩
    · rw [d2, c2]
      simp only [List.length_append]
      omega
    · obtain ⟨k1, hk11, hk12⟩ := c3
      obtain ⟨k2, hk21, hk22⟩ := d3
      refine ⟨k1 + k2, by omega, ?_⟩
      rw [leftNumbers, List.filterMap_append]
      rw [show List.filterMap (fun r => r.left.lineNumber) p.1
        = leftNumbers p.1 from rfl]
      rw [show List.filterMap (fun r => r.left.lineNumber) q.1
        = leftNumbers q.1 from rfl]
      rw [hk12, hk22, hk11]
      have := List.range'_append (st.leftLineNumber + 1) k1 k2 1
      simp only [Nat.one_mul, Nat.mul_one] at this
      rw [show st.leftLineNumber + k1 + 1 = st.leftLineNumber + 1 + k1 by omega]
      rw [this, Nat.add_comm k2 k1]
    · obtain ⟨k1, hk11, hk12⟩ := c4
      obtain ⟨k2, hk21, hk22⟩ := d4
      refine ⟨k1 + k2, by omega, ?_⟩
      rw [rightNumbers, List.filterMap_append]
      rw [show List.filterMap (fun r => r.right.lineNumber) p.1
        = rightNumbers p.1 from rfl]
      rw [show List.filterMap (fun r => r.right.lineNumber) q.1
        = rightNumbers q.1 from rfl]
      rw [hk12, hk22, hk11]
      have := List.range'_append (st.rightLineNumber + 1) k1 k2 1
      simp only [Nat.one_mul, Nat.mul_one] at this
      rw [show st.rightLineNumber + k1 + 1 = st.rightLineNumber + 1 + k1 by omega]
      rw [this, Nat.add_comm k2 k1]
    · intro r hr2
      rcases List.mem_append.mp hr2 with hr2 | hr2
      · exact c5 r hr2
      · exact d5 r hr2

/-- Top-level consequences of `computeLineInformation`, for well-formed chunk
sequences: both line-number sequences are initial segments of the naturals
shifted by the offset, no row is empty on both sides, and the diff-line list
is nondecreasing (strictly increasing when no show-lines tokens are given). -/
theorem computeLineInformation_spec (diffArray : List Change)
    (disableWordDiff : Bool) (compareFunc : String → String → List Change)
    (linesOffset : Nat) (showLines : List String)
    (hwf : WFChanges diffArray) :
    (∃ k, leftNumbers (computeLineInformation diffArray disableWordDiff
      compareFunc linesOffset showLines).lineInformation
        = List.range' (linesOffset + 1) k) ∧
    (∃ k, rightNumbers (computeLineInformation diffArray disableWordDiff
      compareFunc linesOffset showLines).lineInformation
        = List.range' (linesOffset + 1) k) ∧
    (∀ r ∈ (computeLineInformation diffArray disableWordDiff compareFunc
      linesOffset showLines).lineInformation,
        ¬(r.left.value = none ∧ r.right.value = none)) ∧
    List.Pairwise (· ≤ ·) (computeLineInformation diffArray disableWordDiff
      compareFunc linesOffset showLines).diffLines ∧
    (showLines = [] → List.Pairwise (· < ·) (computeLineInformation diffArray
      disableWordDiff compareFunc linesOffset showLines).diffLines) := by
  obtain ⟨d1, d2, d3, d4, d5, d6, d7⟩ := runDiffChunks_spec showLines diffArray
    disableWordDiff compareFunc hwf diffArray 0
    ⟨linesOffset, linesOffset, 0, [], []⟩ (by simp) (by intro p hp; cases hp)
    (runDiffChunks showLines diffArray disableWordDiff compareFunc diffArray 0
      ⟨linesOffset, linesOffset, 0, [], []⟩).1
    (runDiffChunks showLines diffArray disableWordDiff compareFunc diffArray 0
      ⟨linesOffset, linesOffset, 0, [], []⟩).2 rfl
  refine ⟨?_, ?_, d5, ?_, ?_⟩
  · obtain ⟨k, _, hk⟩ := d3
    exact ⟨k, hk⟩
  · obtain ⟨k, _, hk⟩ := d4
    exact ⟨k, hk⟩
  · exact (d6 ⟨List.Pairwise.nil, by simp⟩).1
  · intro hs
    exact (d7 hs ⟨List.Pairwise.nil, by simp⟩).1

/-! ### Claim theorems -/

/-- C1: for every output of `computeLineInformation` on a well-formed chunk
sequence, the sequence of left line numbers taken over rows whose left side
carries a line number is exactly `linesOffset+1, linesOffset+2, ...`
(strictly increasing by exactly 1), and the same holds independently for the
right side. -/
theorem claim_C1 (diffArray : List Change) (disableWordDiff : Bool)
    (compareFunc : String → String → List Change) (linesOffset : Nat)
    (showLines : List String) (hwf : WFChanges diffArray) :
    leftNumbers (computeLineInformation diffArray disableWordDiff compareFunc
        linesOffset showLines).lineInformation
      = List.range' (linesOffset + 1)
          (leftNumbers (computeLineInformation diffArray disableWordDiff
            compareFunc linesOffset showLines).lineInformation).length ∧
    rightNumbers (computeLineInformation diffArray disableWordDiff compareFunc
        linesOffset showLines).lineInformation
      = List.range' (linesOffset + 1)
          (rightNumbers (computeLineInformation diffArray disableWordDiff
            compareFunc linesOffset showLines).lineInformation).length := by
  obtain ⟨⟨k1, h1⟩, ⟨k2, h2⟩, _, _, _⟩ := computeLineInformation_spec diffArray
    disableWordDiff compareFunc linesOffset showLines hwf
  constructor
  · rw [h1, List.length_range']
  · rw [h2, List.length_range']

/-- Witness for C1 at a concrete input: one unchanged line, then a
removed/added modification pair. -/
theorem claim_C1_witness :
    WFChanges [⟨false, false, "a\n"⟩, ⟨false, true, "b"⟩, ⟨true, false, "c"⟩] ∧
    (leftNumbers (computeLineInformation
        [⟨false, false, "a\n"⟩, ⟨false, true, "b"⟩, ⟨true, false, "c"⟩] true
        (fun _ _ => []) 0 []).lineInformation
      = List.range' 1
          (leftNumbers (computeLineInformation
            [⟨false, false, "a\n"⟩, ⟨false, true, "b"⟩, ⟨true, false, "c"⟩] true
            (fun _ _ => []) 0 []).lineInformation).length ∧
    rightNumbers (computeLineInformation
        [⟨false, false, "a\n"⟩, ⟨false, true, "b"⟩, ⟨true, false, "c"⟩] true
        (fun _ _ => []) 0 []).lineInformation
      = List.range' 1
          (rightNumbers (computeLineInformation
            [⟨false, false, "a\n"⟩, ⟨false, true, "b"⟩, ⟨true, false, "c"⟩] true
            (fun _ _ => []) 0 []).lineInformation).length) :=
  ⟨by unfold WFChanges; decide,
   claim_C1 [⟨false, false, "a\n"⟩, ⟨false, true, "b"⟩, ⟨true, false, "c"⟩]
     true (fun _ _ => []) 0 [] (by unfold WFChanges; decide)⟩

/-- C7: every row emitted by `computeLineInformation` on a well-formed chunk
sequence has at least one side populated with a value; no row has both sides
simultaneously empty. -/
theorem claim_C7 (diffArray : List Change) (disableWordDiff : Bool)
    (compareFunc : String → String → List Change) (linesOffset : Nat)
    (showLines : List String) (hwf : WFChanges diffArray) :
    ∀ r ∈ (computeLineInformation diffArray disableWordDiff compareFunc
      linesOffset showLines).lineInformation,
      ¬(r.left.value = none ∧ r.right.value = none) :=
  (computeLineInformation_spec diffArray disableWordDiff compareFunc
    linesOffset showLines hwf).2.2.1

/-- Witness for C7 at a concrete input: the single unchanged row produced by
one unchanged chunk. -/
theorem claim_C7_witness :
    ¬((⟨⟨some (DiffValue.str "x"), some 1, some DiffType.DEFAULT⟩,
        ⟨some (DiffValue.str "x"), some 1, some DiffType.DEFAULT⟩⟩ :
        LineInformation).left.value = none ∧
      (⟨⟨some (DiffValue.str "x"), some 1, some DiffType.DEFAULT⟩,
        ⟨some (DiffValue.str "x"), some 1, some DiffType.DEFAULT⟩⟩ :
        LineInformation).right.value = none) :=
  claim_C7 [⟨false, false, "x"⟩] true (fun _ _ => []) 0 []
    (by unfold WFChanges; decide)
    ⟨⟨some (DiffValue.str "x"), some 1, some DiffType.DEFAULT⟩,
      ⟨some (DiffValue.str "x"), some 1, some DiffType.DEFAULT⟩⟩
    (by decide)

/-- Counterexample to C3 as stated: with `showLines = ["L-1"]` on a
removed/added pair, the forced-visibility push for an `L-` token is not
guarded by the dedup check, so the single changed row's index 0 appears twice
in `diffLines`, which is therefore not duplicate-free. -/
theorem claim_C3_counterexample :
    (computeLineInformation [⟨false, true, "a"⟩, ⟨true, false, "b"⟩] true
      (fun _ _ => []) 0 ["L-1"]).diffLines = [0, 0] ∧
    ¬(computeLineInformation [⟨false, true, "a"⟩, ⟨true, false, "b"⟩] true
      (fun _ _ => []) 0 ["L-1"]).diffLines.Nodup := by
  constructor
  · decide
  · decide

/-- C3 as amended: on well-formed chunk sequences `diffLines` is always
nondecreasing; with no forced-visibility tokens it is strictly increasing
(hence deduplicated and ascending), but an `L-` token naming a changed row's
left line number appends that row's index a second time. -/
theorem claim_C3_amended (diffArray : List Change) (disableWordDiff : Bool)
    (compareFunc : String → String → List Change) (linesOffset : Nat)
    (showLines : List String) (hwf : WFChanges diffArray) :
    List.Pairwise (· ≤ ·) (computeLineInformation diffArray disableWordDiff
      compareFunc linesOffset showLines).diffLines ∧
    (showLines = [] → List.Pairwise (· < ·) (computeLineInformation diffArray
      disableWordDiff compareFunc linesOffset showLines).diffLines) := by
  obtain ⟨_, _, _, h4, h5⟩ := computeLineInformation_spec diffArray
    disableWordDiff compareFunc linesOffset showLines hwf
  exact ⟨h4, h5⟩

/-- Witness for the amended C3 at a concrete input. -/
theorem claim_C3_witness :
    List.Pairwise (· < ·) (computeLineInformation
      [⟨false, true, "a"⟩, ⟨true, false, "b"⟩] true (fun _ _ => []) 0
      []).diffLines :=
  (claim_C3_amended [⟨false, true, "a"⟩, ⟨true, false, "b"⟩] true
    (fun _ _ => []) 0 [] (by unfold WFChanges; decide)).2 rfl

/-- Modelled from the spec: the chunk sequence the external line-oriented
diff primitive (ChangeChunkSource, out of scope per spec sections 1 and 2)
produces for `old = "test\noldLine"`, `new = "test\nnewLine"` — one unchanged
chunk holding the shared first line (with its newline), then a removed chunk
and an added chunk holding the two differing second lines. -/
def modificationChunks : List Change :=
  [⟨false, false, "test\n"⟩, ⟨false, true, "oldLine"⟩, ⟨true, false, "newLine"⟩]

/-- C2: on the chunk sequence for `old = "test\noldLine"`,
`new = "test\nnewLine"` with default options (word diff enabled, any compare
function, offset 0, no forced lines), the output has exactly 2 rows: row 0 has
both sides DEFAULT with line number 1 and value `"test"`; row 1 is a
modification with `left.type = REMOVED`, `right.type = ADDED`, and line number
2 on both sides; and `diffLines = [1]`. -/
theorem claim_C2 (f : String → String → List Change) :
    (computeLineInformation modificationChunks false f 0 []).diffLines = [1] ∧
    (computeLineInformation modificationChunks false f 0
      []).lineInformation.length = 2 ∧
    (computeLineInformation modificationChunks false f 0
        []).lineInformation.get? 0
      = some ⟨⟨some (DiffValue.str "test"), some 1, some DiffType.DEFAULT⟩,
          ⟨some (DiffValue.str "test"), some 1, some DiffType.DEFAULT⟩⟩ ∧
    ∃ r1, (computeLineInformation modificationChunks false f 0
        []).lineInformation.get? 1 = some r1 ∧
      r1.left.type = some DiffType.REMOVED ∧
      r1.right.type = some DiffType.ADDED ∧
      r1.left.lineNumber = some 2 ∧
      r1.right.lineNumber = some 2 :=
  ⟨rfl, rfl, rfl, ⟨_, rfl, rfl, rfl, rfl, rfl⟩⟩

/-- Counterexample to C4 as stated: with the JSON compare method the guard at
the top of `render` is skipped, so a mixed string/object input pair does not
fail. -/
theorem claim_C4_counterexample :
    (InputValue.str "a").isString = true ∧
    InputValue.obj.isString = false ∧
    renderInputCheck (CompareMethodArg.preset DiffMethod.JSON)
      (InputValue.str "a") InputValue.obj = Except.ok () :=
  ⟨rfl, rfl, rfl⟩

/-- C4 as amended: when the compare method is a named string method other than
JSON (the default CHARS included), any input pair that is not two strings —
in particular one string and one structured object — makes `render` throw
the type-mismatch error before any diff computation. -/
theorem claim_C4_amended (m : DiffMethod) (oldValue newValue : InputValue)
    (hm : m ≠ DiffMethod.JSON)
    (h : oldValue.isString = false ∨ newValue.isString = false) :
    renderInputCheck (CompareMethodArg.preset m) oldValue newValue
      = Except.error "\"oldValue\" and \"newValue\" should be strings" := by
  simp only [renderInputCheck]
  rw [if_pos hm]
  rcases h with h | h <;> simp [h]

/-- Witness for the amended C4: default compare method, string old value,
structured-object new value. -/
theorem claim_C4_witness :
    renderInputCheck (CompareMethodArg.preset DiffMethod.CHARS)
      (InputValue.str "x") InputValue.obj
      = Except.error "\"oldValue\" and \"newValue\" should be strings" :=
  claim_C4_amended DiffMethod.CHARS (InputValue.str "x") InputValue.obj
    (by decide) (Or.inr rfl)

/-- `finishRow` with no show-lines tokens and `countAsChange` false: the
state only advances its counter. -/
theorem finishRow_nil_false (L R : DiffInformation) (st : ReconcilerState) :
    finishRow [] L R false st
      = (some ⟨L, R⟩, ⟨st.leftLineNumber, st.rightLineNumber, st.counter + 1,
          st.diffLines, st.ignoreDiffIndexes⟩) := by
  unfold finishRow
  simp

/-- `finishRow` with no show-lines tokens: only the `countAsChange`
registration and the counter increment remain. -/
theorem finishRow_nil (L R : DiffInformation) (cac : Bool)
    (st : ReconcilerState) :
    finishRow [] L R cac st
      = (some ⟨L, R⟩, ⟨st.leftLineNumber, st.rightLineNumber, st.counter + 1,
          if cac && !(st.diffLines.contains st.counter) then
            st.diffLines ++ [st.counter]
          else st.diffLines,
          st.ignoreDiffIndexes⟩) := by
  unfold finishRow
  split_ifs <;> simp

/-- Counterexample to C5 as stated: on the chunk sequence for `old = "\n"`,
`new = " \n"` the removed line is the empty string and the added line is a
single space — not byte-identical — yet the pair is downgraded to DEFAULT on
both sides and not registered in `diffLines`, because the comparison uses the
left value after the empty string has been substituted by `" "`. -/
theorem claim_C5_counterexample :
    ("" : String) ≠ " " ∧
    (computeLineInformation [⟨false, true, "\n"⟩, ⟨true, false, " \n"⟩] true
      (fun _ _ => []) 0 []).lineInformation
      = [⟨⟨some (DiffValue.str " "), some 1, some DiffType.DEFAULT⟩,
          ⟨some (DiffValue.str " "), some 1, some DiffType.DEFAULT⟩⟩] ∧
    (computeLineInformation [⟨false, true, "\n"⟩, ⟨true, false, " \n"⟩] true
      (fun _ _ => []) 0 []).diffLines = [] := by
  refine ⟨by decide, by decide, by decide⟩

/-- C5 as amended: in a lookahead-detected removed/added pair (with no
forced-visibility tokens), the row is downgraded to DEFAULT on both sides, the
right side carries the added line's value, and the row's diff-line
registration leaves `diffLines` unchanged, if and only if the removed line's
value after empty-string substitution (`line || " "`) equals the added line's
raw value — not iff the raw values are byte-identical. -/
theorem claim_C5_amended (diffArray : List Change) (dwd : Bool)
    (f : String → String → List Change) (diffIndex lineIndex : Nat)
    (line nl : String) (st : ReconcilerState)
    (h0 : st.ignoreDiffIndexes.contains (diffIndex, lineIndex) = false)
    (hl0 : st.ignoreDiffIndexes.contains (diffIndex, 0) = false)
    (hlt : lookaheadTarget diffArray diffIndex lineIndex = some nl)
    (hfresh : st.counter ∉ st.diffLines) :
    ∃ row st',
      getLineRow [] diffArray dwd f diffIndex false true line lineIndex st
        = (some row, st') ∧
      ((if line = "" then " " else line) = nl ↔
        (row.left.type = some DiffType.DEFAULT ∧
         row.right.type = some DiffType.DEFAULT ∧
         row.right.value = some (DiffValue.str nl) ∧
         st'.diffLines = st.diffLines)) := by
  obtain ⟨ri, st2, hla, hriv, hrin, hrit, hs1, hs2, hs3, hs4, hs5, hs6⟩ :=
    lookaheadLine_spec [] diffIndex nl
      { st with leftLineNumber := st.leftLineNumber + 1 } hl0
  have hdl2 : st2.diffLines = st.diffLines := hs6 rfl
  rw [getLineRow_eq_removed_merge [] diffArray dwd f diffIndex false line nl
    lineIndex st ri st2 h0 hlt hla]
  by_cases hval : (if line = "" then " " else line) = nl
  · have hveq : (removedLeft line st.leftLineNumber).value = ri.value := by
      rw [hriv, removedLeft, hval]
    rw [mergeRemoved_eq_same [] dwd f diffIndex lineIndex line nl
      (removedLeft line st.leftLineNumber) ri st2 hveq]
    rw [finishRow_nil_false]
    refine ⟨_, _, rfl, ?_⟩
    refine iff_of_true hval ⟨rfl, rfl, by rw [hriv], by simpa using hdl2⟩
  · have hvne : ¬((removedLeft line st.leftLineNumber).value = ri.value) := by
      rw [hriv, removedLeft]
      simp only [DiffInformation.mk.injEq]
      intro hcontra
      apply hval
      have := Option.some.injEq (DiffValue.str (if line = "" then " " else line))
        (DiffValue.str nl)
      have h2 : DiffValue.str (if line = "" then " " else line)
          = DiffValue.str nl := by
        exact Option.some.inj hcontra
      exact DiffValue.str.inj h2
    cases dwd with
    | true =>
      rw [mergeRemoved_eq_plain [] f diffIndex lineIndex line nl
        (removedLeft line st.leftLineNumber) ri st2 hvne]
      rw [finishRow_nil]
      refine ⟨_, _, rfl, ?_⟩
      refine iff_of_false hval ?_
      intro ⟨h1, _⟩
      rw [removedLeft] at h1
      simp at h1
    | false =>
      rw [mergeRemoved_eq_frags [] f diffIndex lineIndex line nl
        (removedLeft line st.leftLineNumber) ri st2 hvne]
      rw [finishRow_nil]
      refine ⟨_, _, rfl, ?_⟩
      refine iff_of_false hval ?_
      intro ⟨h1, _⟩
      rw [removedLeft] at h1
      simp at h1

/-- Witness for the amended C5: a removed `"a"` merged with an added `"a"`
(byte-identical, hence also substitution-identical). -/
theorem claim_C5_witness :
    ∃ row st',
      getLineRow [] [⟨false, true, "a\n"⟩, ⟨true, false, "a\n"⟩] true
        (fun _ _ => []) 0 false true "a" 0
        ⟨0, 0, 0, [], []⟩ = (some row, st') ∧
      ((if "a" = "" then " " else "a") = "a" ↔
        (row.left.type = some DiffType.DEFAULT ∧
         row.right.type = some DiffType.DEFAULT ∧
         row.right.value = some (DiffValue.str "a") ∧
         st'.diffLines = ([] : List Nat))) :=
  claim_C5_amended [⟨false, true, "a\n"⟩, ⟨true, false, "a\n"⟩] true
    (fun _ _ => []) 0 0 "a" "a" ⟨0, 0, 0, [], []⟩ (by decide) (by decide)
    (by decide) (by decide)

/-- Counterexample to C8 as stated: on the chunk sequence for `old = "\n"`,
`new = "x\n"` with word diff enabled and a compare function behaving like
`diffChars` on `("", "x")` (a single added chunk), the removed empty line is
merged into a modification and its `left.value` is overwritten with the
word-diff fragment list (here empty) — not the single space `" "`. -/
theorem claim_C8_counterexample :
    ((computeLineInformation [⟨false, true, "\n"⟩, ⟨true, false, "x\n"⟩] false
      (fun _ b => [⟨true, false, b⟩]) 0 []).lineInformation.map
        fun r => r.left.value) = [some (DiffValue.frags [])] ∧
    some (DiffValue.frags ([] : List Fragment))
      ≠ some (DiffValue.str " ") := by
  refine ⟨by decide, by decide⟩

/-- C8 as amended: a removed line whose raw content is the empty string is
emitted with `left.value = " "` in every case but one — when the line is
merged with an added lookahead line that differs from the substituted value
`" "` while word diff is enabled, `left.value` is instead exactly the
word-diff fragment list of the pair; in every case the left line-number
counter advances by exactly 1 and the row carries that line number. -/
theorem claim_C8_amended (showLines : List String) (diffArray : List Change)
    (dwd : Bool) (f : String → String → List Change)
    (diffIndex lineIndex : Nat) (st : ReconcilerState)
    (h0 : st.ignoreDiffIndexes.contains (diffIndex, lineIndex) = false)
    (hl0 : st.ignoreDiffIndexes.contains (diffIndex, 0) = false) :
    ∃ row st',
      getLineRow showLines diffArray dwd f diffIndex false true "" lineIndex st
        = (some row, st') ∧
      st'.leftLineNumber = st.leftLineNumber + 1 ∧
      row.left.lineNumber = some (st.leftLineNumber + 1) ∧
      (lookaheadTarget diffArray diffIndex lineIndex = none →
        row.left.value = some (DiffValue.str " ")) ∧
      (∀ nl, lookaheadTarget diffArray diffIndex lineIndex = some nl →
        (" " = nl ∨ dwd = true) →
        row.left.value = some (DiffValue.str " ")) ∧
      (∀ nl, lookaheadTarget diffArray diffIndex lineIndex = some nl →
        " " ≠ nl → dwd = false →
        row.left.value
          = some (DiffValue.frags (computeDiff (f "" nl)).1)) := by
  cases hlt : lookaheadTarget diffArray diffIndex lineIndex with
  | none =>
    rw [getLineRow_eq_removed_pure showLines diffArray dwd f diffIndex false
      "" lineIndex st h0 hlt]
    obtain ⟨e1, e2, e3, e4, e5, e6, e7⟩ := finishRow_spec showLines
      (removedLeft "" st.leftLineNumber) {} true
      { st with leftLineNumber := st.leftLineNumber + 1 }
    refine ⟨_, _, by rw [← e1], by simpa using e2, rfl, fun _ => rfl, ?_, ?_⟩
    · intro nl hnl
      cases hnl
    · intro nl hnl
      cases hnl
  | some nl0 =>
    obtain ⟨ri, st2, hla, hriv, hrin, hrit, hs1, hs2, hs3, hs4, hs5, hs6⟩ :=
      lookaheadLine_spec showLines diffIndex nl0
        { st with leftLineNumber := st.leftLineNumber + 1 } hl0
    rw [getLineRow_eq_removed_merge showLines diffArray dwd f diffIndex false
      "" nl0 lineIndex st ri st2 h0 hlt hla]
    have hlv : (removedLeft "" st.leftLineNumber).value
        = some (DiffValue.str " ") := rfl
    by_cases hveq : (removedLeft "" st.leftLineNumber).value = ri.value
    · have hsp : " " = nl0 := by
        rw [hlv, hriv] at hveq
        exact DiffValue.str.inj (Option.some.inj hveq)
      rw [mergeRemoved_eq_same showLines dwd f diffIndex lineIndex "" nl0
        (removedLeft "" st.leftLineNumber) ri st2 hveq]
      obtain ⟨e1, e2, e3, e4, e5, e6, e7⟩ := finishRow_spec showLines
        { removedLeft "" st.leftLineNumber with type := some DiffType.DEFAULT }
        ⟨ri.value, ri.lineNumber, some DiffType.DEFAULT⟩ false
        { st2 with ignoreDiffIndexes := st2.ignoreDiffIndexes ++ [(diffIndex + 1, lineIndex)] }
      refine ⟨_, _, by rw [← e1], by rw [e2]; simpa using hs1, rfl, ?_, ?_, ?_⟩
      · intro h
        cases h
      · intro nl hnl hor
        rfl
      · intro nl hnl hne hd
        injection hnl with hnl
        subst hnl
        exact absurd hsp hne
    · have hsp : ¬(" " = nl0) := by
        intro h
        apply hveq
        rw [hlv, hriv, h]
      cases dwd with
      | true =>
        rw [mergeRemoved_eq_plain showLines f diffIndex lineIndex "" nl0
          (removedLeft "" st.leftLineNumber) ri st2 hveq]
        obtain ⟨e1, e2, e3, e4, e5, e6, e7⟩ := finishRow_spec showLines
          (removedLeft "" st.leftLineNumber)
          ⟨ri.value, ri.lineNumber, ri.type⟩ true
          { st2 with ignoreDiffIndexes := st2.ignoreDiffIndexes ++ [(diffIndex + 1, lineIndex)] }
        refine ⟨_, _, by rw [← e1], by rw [e2]; simpa using hs1, rfl, ?_, ?_, ?_⟩
        · intro h
          cases h
        · intro nl hnl hor
          rfl
        · intro nl hnl hne hd
          cases hd
      | false =>
        rw [mergeRemoved_eq_frags showLines f diffIndex lineIndex "" nl0
          (removedLeft "" st.leftLineNumber) ri st2 hveq]
        obtain ⟨e1, e2, e3, e4, e5, e6, e7⟩ := finishRow_spec showLines
          { removedLeft "" st.leftLineNumber with
            value := some (DiffValue.frags (computeDiff (f "" nl0)).1) }
          ⟨some (DiffValue.frags (computeDiff (f "" nl0)).2), ri.lineNumber, ri.type⟩
          true
          { st2 with ignoreDiffIndexes := st2.ignoreDiffIndexes ++ [(diffIndex + 1, lineIndex)] }
        refine ⟨_, _, by rw [← e1], by rw [e2]; simpa using hs1, rfl, ?_, ?_, ?_⟩
        · intro h
          cases h
        · intro nl hnl hor
          injection hnl with hnl
          subst hnl
          rcases hor with hor | hor
          · exact absurd hor hsp
          · cases hor
        · intro nl hnl hne hd
          injection hnl with hnl
          subst hnl
          rfl

/-- Witness for the amended C8: a pure removal of an empty line (no added
lookahead), whose emitted value is the single space. -/
theorem claim_C8_witness :
    ∃ row st',
      getLineRow [] [⟨false, true, "\n"⟩] true (fun _ _ => []) 0 false true ""
        0 ⟨0, 0, 0, [], []⟩ = (some row, st') ∧
      st'.leftLineNumber = 0 + 1 ∧
      row.left.lineNumber = some (0 + 1) ∧
      row.left.value = some (DiffValue.str " ") := by
  obtain ⟨row, st', h1, h2, h3, h4, _, _⟩ :=
    claim_C8_amended [] [⟨false, true, "\n"⟩] true (fun _ _ => []) 0 0
      ⟨0, 0, 0, [], []⟩ (by decide) (by decide)
  exact ⟨row, st', h1, h2, h3, h4 (by decide)⟩

/-- The block list as the source sees it: blocks in discovery order; the
still-open block (if any) is the last one pushed. -/
def blocksOf (st : HiddenBlocksState) : List Block :=
  st.closedBlocks ++ st.currentBlock.toList

/-- The scan invariant of `computeHiddenBlocks` after processing row indices
below `i`. -/
def HBInv (diffLines : List Nat) (extraLines : Nat) (i : Nat)
    (st : HiddenBlocksState) : Prop :=
  (∀ b ∈ blocksOf st, b.startLine ≤ b.endLine ∧ b.endLine < i ∧
    ∀ j, b.startLine ≤ j → j ≤ b.endLine →
      isDiffLine diffLines extraLines j = false) ∧
  List.Pairwise (fun a b => a.endLine < b.startLine) (blocksOf st) ∧
  (∀ b, st.currentBlock = some b → b.endLine + 1 = i)

theorem hiddenBlocksStep_inv (diffLines : List Nat) (extraLines : Nat)
    (i : Nat) (st : HiddenBlocksState)
    (h : HBInv diffLines extraLines i st) :
    HBInv diffLines extraLines (i + 1)
      (hiddenBlocksStep diffLines extraLines st i) := by
  obtain ⟨h1, h2, h3⟩ := h
  unfold hiddenBlocksStep
  cases hd : isDiffLine diffLines extraLines i with
  | true =>
    simp only [if_pos rfl, if_true]
    refine ⟨?_, ?_, ?_⟩
    · intro b hb
      have hb' : b ∈ blocksOf st := by
        simpa [blocksOf] using hb
      obtain ⟨k1, k2, k3⟩ := h1 b hb'
      exact ⟨k1, Nat.lt_succ_of_lt k2, k3⟩
    · have heq : blocksOf ({ st with
        closedBlocks := st.closedBlocks ++ st.currentBlock.toList, currentBlock := none } :
          HiddenBlocksState) = blocksOf st := by
        simp [blocksOf]
      rw [heq]
      exact h2
    · intro b hb
      cases hb
  | false =>
    simp only [Bool.false_eq_true, if_false]
    cases hcur : st.currentBlock with
    | none =>
      have hbo : blocksOf st = st.closedBlocks := by
        simp [blocksOf, hcur]
      refine ⟨?_, ?_, ?_⟩
      · intro b hb
        have hb2 : b ∈ st.closedBlocks ∨
            b = ⟨st.newBlockIndex, i, i, 1⟩ := by
          simpa [blocksOf] using hb
        rcases hb2 with hb2 | hb2
        · obtain ⟨k1, k2, k3⟩ := h1 b (by rw [hbo]; exact hb2)
          exact ⟨k1, Nat.lt_succ_of_lt k2, k3⟩
        · subst hb2
          refine ⟨le_rfl, Nat.lt_succ_self i, ?_⟩
          intro j hj1 hj2
          have hji1 : i ≤ j := hj1
          have hji2 : j ≤ i := hj2
          have : j = i := Nat.le_antisymm hji2 hji1
          subst this
          exact hd
      · show List.Pairwise _ (st.closedBlocks ++ [⟨st.newBlockIndex, i, i, 1⟩])
        rw [List.pairwise_append]
        refine ⟨by rw [hbo] at h2; exact h2, List.pairwise_singleton _ _, ?_⟩
        intro a ha b hb
        have hb' : b = ⟨st.newBlockIndex, i, i, 1⟩ := by simpa using hb
        subst hb'
        obtain ⟨_, k2, _⟩ := h1 a (by rw [hbo]; exact ha)
        exact k2
      · intro b hb
        have hb' : (⟨st.newBlockIndex, i, i, 1⟩ : Block) = b := by
          simpa using hb
        subst hb'
        rfl
    | some b0 =>
      have hbo : blocksOf st = st.closedBlocks ++ [b0] := by
        simp [blocksOf, hcur]
      have hb0 : b0 ∈ blocksOf st := by
        rw [hbo]; exact List.mem_append_right _ (List.mem_singleton_self b0)
      obtain ⟨k1, k2, k3⟩ := h1 b0 hb0
      have hout : b0.endLine + 1 = i := h3 b0 hcur
      refine ⟨?_, ?_, ?_⟩
      · intro b hb
        have hb2 : b ∈ st.closedBlocks ∨
            b = ⟨b0.index, b0.startLine, i, b0.lines + 1⟩ := by
          simpa [blocksOf] using hb
        rcases hb2 with hb2 | hb2
        · obtain ⟨m1, m2, m3⟩ := h1 b
            (by rw [hbo]; exact List.mem_append_left _ hb2)
          exact ⟨m1, Nat.lt_succ_of_lt m2, m3⟩
        · subst hb2
          refine ⟨show b0.startLine ≤ i by omega, Nat.lt_succ_self i, ?_⟩
          intro j hj1 hj2
          have hj1' : b0.startLine ≤ j := hj1
          have hj2' : j ≤ i := hj2
          by_cases hjle : j ≤ b0.endLine
          · exact k3 j hj1' hjle
          · have : j = i := by omega
            subst this
            exact hd
      · show List.Pairwise _
          (st.closedBlocks ++ [⟨b0.index, b0.startLine, i, b0.lines + 1⟩])
        rw [List.pairwise_append]
        rw [hbo, List.pairwise_append] at h2
        refine ⟨h2.1, List.pairwise_singleton _ _, ?_⟩
        intro a ha b hb
        have hb' : b = ⟨b0.index, b0.startLine, i, b0.lines + 1⟩ := by
          simpa using hb
        subst hb'
        show a.endLine < b0.startLine
        exact h2.2.2 a ha b0 (List.mem_singleton_self b0)
      · intro b hb
        have hb' : (⟨b0.index, b0.startLine, i, b0.lines + 1⟩ : Block) = b := by
          simpa using hb
        subst hb'
        rfl

theorem computeHiddenBlocks_inv (diffLines : List Nat) (extraLines : Nat) :
    ∀ n, HBInv diffLines extraLines n
      ((List.range n).foldl (hiddenBlocksStep diffLines extraLines)
        ⟨0, none, [], []⟩) := by
  intro n
  induction n with
  | zero =>
    refine ⟨?_, ?_, ?_⟩
    · intro b hb
      simp [blocksOf] at hb
    · simp [blocksOf]
    · intro b hb
      cases hb
  | succ n ihn =>
    rw [List.range_succ, List.foldl_append]
    exact hiddenBlocksStep_inv diffLines extraLines n _ ihn

theorem isDiffLine_eq_false_iff (diffLines : List Nat) (extraLines j : Nat) :
    isDiffLine diffLines extraLines j = false ↔
      ∀ d ∈ diffLines,
        ¬(((d : Int) - (extraLines : Int) ≤ (j : Int)) ∧
          ((j : Int) ≤ (d : Int) + (extraLines : Int))) := by
  unfold isDiffLine
  rw [Bool.eq_false_iff]
  simp only [ne_eq, List.any_eq_true, Bool.and_eq_true, decide_eq_true_eq,
    not_exists, not_and]
  constructor
  · intro h d hd h1 h2
    exact (h d hd (by omega)) (by omega)
  · intro h d hd h1 h2
    exact (h d hd (by omega)) (by omega)

/-- C6: every block returned by `computeHiddenBlocks` satisfies
`startLine ≤ endLine`; the block list is ordered with pairwise disjoint
inclusive ranges (each block ends strictly before the next begins); and every
row index inside a block's range is outside the protected radius of every
`diffLines` entry. -/
theorem claim_C6 (lineInformation : List LineInformation)
    (diffLines : List Nat) (extraLines : Nat) :
    List.Pairwise (fun a b => a.endLine < b.startLine)
      (computeHiddenBlocks lineInformation diffLines extraLines).blocks ∧
    ∀ b ∈ (computeHiddenBlocks lineInformation diffLines extraLines).blocks,
      b.startLine ≤ b.endLine ∧
      ∀ i, b.startLine ≤ i → i ≤ b.endLine →
        ∀ d ∈ diffLines,
          ¬(((d : Int) - (extraLines : Int) ≤ (i : Int)) ∧
            ((i : Int) ≤ (d : Int) + (extraLines : Int))) := by
  obtain ⟨h1, h2, _⟩ := computeHiddenBlocks_inv diffLines extraLines
    lineInformation.length
  have hblocks : (computeHiddenBlocks lineInformation diffLines
      extraLines).blocks
      = blocksOf ((List.range lineInformation.length).foldl
        (hiddenBlocksStep diffLines extraLines) ⟨0, none, [], []⟩) := rfl
  rw [hblocks]
  refine ⟨h2, ?_⟩
  intro b hb
  obtain ⟨k1, _, k3⟩ := h1 b hb
  refine ⟨k1, ?_⟩
  intro i hi1 hi2
  exact (isDiffLine_eq_false_iff diffLines extraLines i).mp (k3 i hi1 hi2)

/-- Witness for C6: three rows, one protected diff line far away, context
width 1 — a single block covering rows 0 to 2. -/
theorem claim_C6_witness :
    (0 : Nat) ≤ 2 ∧
    ¬(((5 : Int) - (1 : Int) ≤ (0 : Int)) ∧ ((0 : Int) ≤ (5 : Int) + (1 : Int))) ∧
    List.Pairwise (fun a b => a.endLine < b.startLine)
      (computeHiddenBlocks [{}, {}, {}] [5] 1).blocks := by
  have h := claim_C6 [{}, {}, {}] [5] 1
  have hb : (⟨0, 0, 2, 3⟩ : Block)
      ∈ (computeHiddenBlocks [{}, {}, {}] [5] 1).blocks := by
    decide
  obtain ⟨k1, k3⟩ := h.2 ⟨0, 0, 2, 3⟩ hb
  exact ⟨k1, k3 0 (by decide) (by decide) 5 (by decide), h.1⟩

/-- The fragment the left output of `computeDiff` holds for a kept (non-added)
change object. -/
def leftFragment (c : Change) : Fragment :=
  ⟨if c.removed then DiffType.REMOVED else DiffType.DEFAULT, c.value⟩

/-- The fragment the right output of `computeDiff` holds for a kept
(non-removed) change object. -/
def rightFragment (c : Change) : Fragment :=
  ⟨if c.added then DiffType.ADDED else DiffType.DEFAULT, c.value⟩

theorem computeDiff_foldl (cs : List Change)
    (hwf : ∀ c ∈ cs, ¬(c.added = true ∧ c.removed = true)) :
    ∀ acc : List Fragment × List Fragment,
      cs.foldl computeDiffStep acc
        = (acc.1 ++ (cs.filter fun c => !c.added).map leftFragment,
           acc.2 ++ (cs.filter fun c => !c.removed).map rightFragment) := by
  induction cs with
  | nil => intro acc; simp
  | cons c cs' ih =>
    intro acc
    have hc : ¬(c.added = true ∧ c.removed = true) :=
      hwf c (List.mem_cons_self c cs')
    have ih' := ih fun d hd => hwf d (List.mem_cons_of_mem c hd)
    rw [List.foldl_cons, ih']
    cases ha : c.added with
    | true =>
      have hr : c.removed = false := by
        cases hval : c.removed
        · rfl
        · exact absurd ⟨ha, hval⟩ hc
      simp [computeDiffStep, ha, hr, rightFragment, List.filter_cons]
    | false =>
      cases hr : c.removed with
      | true =>
        simp [computeDiffStep, ha, hr, leftFragment, List.filter_cons]
      | false =>
        simp [computeDiffStep, ha, hr, leftFragment, rightFragment,
          List.filter_cons]

/-- C10: `computeDiff` places each removed chunk only in the left output and
each added chunk only in the right output, keeps unchanged chunks in both,
preserves chunk order within each side, and tags fragments REMOVED / ADDED /
DEFAULT; consequently the concatenated left fragment values are exactly the
concatenated values of the non-added chunks and the concatenated right
fragment values are exactly the concatenated values of the non-removed
chunks. -/
theorem claim_C10 (cs : List Change) (hwf : WFChanges cs) :
    (computeDiff cs).1 = (cs.filter fun c => !c.added).map leftFragment ∧
    (computeDiff cs).2 = (cs.filter fun c => !c.removed).map rightFragment ∧
    String.join ((computeDiff cs).1.map Fragment.value)
      = String.join ((cs.filter fun c => !c.added).map Change.value) ∧
    String.join ((computeDiff cs).2.map Fragment.value)
      = String.join ((cs.filter fun c => !c.removed).map Change.value) := by
  have h := computeDiff_foldl cs hwf ([], [])
  have h1 : (computeDiff cs).1 = (cs.filter fun c => !c.added).map leftFragment := by
    rw [computeDiff, h]
    simp
  have h2 : (computeDiff cs).2 = (cs.filter fun c => !c.removed).map rightFragment := by
    rw [computeDiff, h]
    simp
  refine ⟨h1, h2, ?_, ?_⟩
  · rw [h1, List.map_map]
    congr 1
  · rw [h2, List.map_map]
    congr 1

/-- Witness for C10 at a concrete chunk sequence: removed, unchanged, added. -/
theorem claim_C10_witness :
    WFChanges [⟨false, true, "a"⟩, ⟨false, false, "b"⟩, ⟨true, false, "c"⟩] ∧
    (computeDiff [⟨false, true, "a"⟩, ⟨false, false, "b"⟩, ⟨true, false, "c"⟩]).1
      = (([⟨false, true, "a"⟩, ⟨false, false, "b"⟩, ⟨true, false, "c"⟩] :
          List Change).filter fun c => !c.added).map leftFragment ∧
    String.join (((computeDiff [⟨false, true, "a"⟩, ⟨false, false, "b"⟩,
        ⟨true, false, "c"⟩]).2).map Fragment.value)
      = String.join ((([⟨false, true, "a"⟩, ⟨false, false, "b"⟩,
          ⟨true, false, "c"⟩] : List Change).filter
            fun c => !c.removed).map Change.value) := by
  have h := claim_C10 [⟨false, true, "a"⟩, ⟨false, false, "b"⟩, ⟨true, false, "c"⟩]
    (by unfold WFChanges; decide)
  exact ⟨by unfold WFChanges; decide, h.1, h.2.2.2⟩

/-! ### Offset-shift simulation (C9) -/

/-- Shift a side's line number by `k`, leaving value and type untouched. -/
def shiftInfo (k : Nat) (d : DiffInformation) : DiffInformation :=
  { d with lineNumber := d.lineNumber.map (· + k) }

/-- Shift both sides of a row by `k`. -/
def shiftRow (k : Nat) (r : LineInformation) : LineInformation :=
  ⟨shiftInfo k r.left, shiftInfo k r.right⟩

/-- Two reconciler states that differ only by `k` in both line counters. -/
def StShift (k : Nat) (a b : ReconcilerState) : Prop :=
  a.leftLineNumber = b.leftLineNumber + k ∧
  a.rightLineNumber = b.rightLineNumber + k ∧
  a.counter = b.counter ∧
  a.diffLines = b.diffLines ∧
  a.ignoreDiffIndexes = b.ignoreDiffIndexes

theorem shiftInfo_mk (k : Nat) (v : Option DiffValue) (t : Option DiffType)
    (m n : Nat) (h : m = n + k) :
    (⟨v, some (m + 1), t⟩ : DiffInformation)
      = shiftInfo k ⟨v, some (n + 1), t⟩ := by
  simp [shiftInfo]
  omega

theorem shiftInfo_empty (k : Nat) :
    ({} : DiffInformation) = shiftInfo k {} := by
  simp [shiftInfo]

theorem removedLeft_shift (k : Nat) (line : String) (m n : Nat)
    (h : m = n + k) :
    removedLeft line m = shiftInfo k (removedLeft line n) := by
  simp [removedLeft, shiftInfo]
  omega

theorem finishRow_shift (k : Nat) (Lb Rb : DiffInformation) (cac : Bool)
    (a b : ReconcilerState) (hab : StShift k a b) :
    ∀ rowOpt st', finishRow [] Lb Rb cac b = (rowOpt, st') →
      ∃ st2', finishRow [] (shiftInfo k Lb) (shiftInfo k Rb) cac a
          = (rowOpt.map (shiftRow k), st2') ∧ StShift k st2' st' := by
  obtain ⟨hL, hR, hC, hD, hI⟩ := hab
  intro rowOpt st' heq
  rw [finishRow_nil] at heq
  injection heq with hA hB
  subst hA; subst hB
  rw [finishRow_nil]
  refine ⟨_, rfl, ?_⟩
  exact ⟨by simpa using hL, by simpa using hR, by simpa using hC,
    by simp [hD, hC], by simpa using hI⟩

theorem lookaheadLine_nil (diffIndex : Nat) (line : String)
    (st : ReconcilerState)
    (h : st.ignoreDiffIndexes.contains (diffIndex, 0) = false) :
    lookaheadLine [] diffIndex line st
      = some (⟨some (DiffValue.str line), some (st.rightLineNumber + 1),
          some DiffType.ADDED⟩,
        ⟨st.leftLineNumber, st.rightLineNumber + 1, st.counter, st.diffLines,
          st.ignoreDiffIndexes⟩) := by
  unfold lookaheadLine
  rw [h]
  simp

theorem lookaheadLine_eq_none (showLines : List String) (diffIndex : Nat)
    (line : String) (st : ReconcilerState)
    (h : st.ignoreDiffIndexes.contains (diffIndex, 0) = true) :
    lookaheadLine showLines diffIndex line st = none := by
  unfold lookaheadLine
  rw [h]
  simp

theorem mergeRemoved_shift (k : Nat) (dwd : Bool)
    (f : String → String → List Change) (diffIndex lineIndex : Nat)
    (line nl : String) (l0b rib : DiffInformation) (a2 b2 : ReconcilerState)
    (hab : StShift k a2 b2) :
    ∀ rowOpt st',
      mergeRemoved [] dwd f diffIndex lineIndex line nl l0b rib b2
        = (rowOpt, st') →
      ∃ st2', mergeRemoved [] dwd f diffIndex lineIndex line nl
          (shiftInfo k l0b) (shiftInfo k rib) a2
          = (rowOpt.map (shiftRow k), st2') ∧ StShift k st2' st' := by
  intro rowOpt st' heq
  have hS : StShift k
      { a2 with ignoreDiffIndexes := a2.ignoreDiffIndexes ++ [(diffIndex + 1, lineIndex)] }
      { b2 with ignoreDiffIndexes := b2.ignoreDiffIndexes ++ [(diffIndex + 1, lineIndex)] } := by
    obtain ⟨hL, hR, hC, hD, hI⟩ := hab
    exact ⟨by simpa using hL, by simpa using hR, by simpa using hC,
      by simpa using hD, by simp [hI]⟩
  by_cases hveq : l0b.value = rib.value
  · rw [mergeRemoved_eq_same [] dwd f diffIndex lineIndex line nl l0b rib b2
      hveq] at heq
    rw [mergeRemoved_eq_same [] dwd f diffIndex lineIndex line nl
      (shiftInfo k l0b) (shiftInfo k rib) a2 hveq]
    have hbrL : ({ shiftInfo k l0b with type := some DiffType.DEFAULT } :
        DiffInformation)
        = shiftInfo k { l0b with type := some DiffType.DEFAULT } := by
      simp [shiftInfo]
    have hbrR : (⟨(shiftInfo k rib).value, (shiftInfo k rib).lineNumber,
        some DiffType.DEFAULT⟩ : DiffInformation)
        = shiftInfo k ⟨rib.value, rib.lineNumber, some DiffType.DEFAULT⟩ := by
      simp [shiftInfo]
    rw [hbrL, hbrR]
    exact finishRow_shift k _ _ false _ _ hS rowOpt st' heq
  · cases dwd with
    | true =>
      rw [mergeRemoved_eq_plain [] f diffIndex lineIndex line nl l0b rib b2
        hveq] at heq
      rw [mergeRemoved_eq_plain [] f diffIndex lineIndex line nl
        (shiftInfo k l0b) (shiftInfo k rib) a2 hveq]
      have hbrR : (⟨(shiftInfo k rib).value, (shiftInfo k rib).lineNumber,
          (shiftInfo k rib).type⟩ : DiffInformation)
          = shiftInfo k ⟨rib.value, rib.lineNumber, rib.type⟩ := by
        simp [shiftInfo]
      rw [hbrR]
      exact finishRow_shift k _ _ true _ _ hS rowOpt st' heq
    | false =>
      rw [mergeRemoved_eq_frags [] f diffIndex lineIndex line nl l0b rib b2
        hveq] at heq
      rw [mergeRemoved_eq_frags [] f diffIndex lineIndex line nl
        (shiftInfo k l0b) (shiftInfo k rib) a2 hveq]
      have hbrL : ({ shiftInfo k l0b with
          value := some (DiffValue.frags (computeDiff (f line nl)).1) } :
          DiffInformation)
          = shiftInfo k { l0b with
            value := some (DiffValue.frags (computeDiff (f line nl)).1) } := by
        simp [shiftInfo]
      have hbrR : (⟨some (DiffValue.frags (computeDiff (f line nl)).2),
          (shiftInfo k rib).lineNumber, (shiftInfo k rib).type⟩ :
          DiffInformation)
          = shiftInfo k ⟨some (DiffValue.frags (computeDiff (f line nl)).2),
            rib.lineNumber, rib.type⟩ := by
        simp [shiftInfo]
      rw [hbrL, hbrR]
      exact finishRow_shift k _ _ true _ _ hS rowOpt st' heq

theorem getLineRow_shift (diffArray : List Change) (dwd : Bool)
    (f : String → String → List Change) (diffIndex : Nat)
    (added removed : Bool) (line : String) (lineIndex : Nat) (k : Nat)
    (a b : ReconcilerState) (hab : StShift k a b) :
    ∀ rowOpt st',
      getLineRow [] diffArray dwd f diffIndex added removed line lineIndex b
        = (rowOpt, st') →
      ∃ st2',
        getLineRow [] diffArray dwd f diffIndex added removed line lineIndex a
          = (rowOpt.map (shiftRow k), st2') ∧ StShift k st2' st' := by
  obtain ⟨hL, hR, hC, hD, hI⟩ := hab
  intro rowOpt st' heq
  cases hct : b.ignoreDiffIndexes.contains (diffIndex, lineIndex) with
  | true =>
    rw [getLineRow_eq_ignored [] diffArray dwd f diffIndex added removed line
      lineIndex b hct] at heq
    injection heq with hA hB
    subst hA; subst hB
    rw [getLineRow_eq_ignored [] diffArray dwd f diffIndex added removed line
      lineIndex a (by rw [hI]; exact hct)]
    exact ⟨a, rfl, hL, hR, hC, hD, hI⟩
  | false =>
    have hcta : a.ignoreDiffIndexes.contains (diffIndex, lineIndex) = false := by
      rw [hI]; exact hct
    cases removed with
    | false =>
      cases added with
      | false =>
        rw [getLineRow_eq_unchanged [] diffArray dwd f diffIndex line
          lineIndex b hct] at heq
        rw [getLineRow_eq_unchanged [] diffArray dwd f diffIndex line
          lineIndex a hcta]
        rw [shiftInfo_mk k (some (DiffValue.str line)) (some DiffType.DEFAULT)
          a.leftLineNumber b.leftLineNumber hL]
        rw [shiftInfo_mk k (some (DiffValue.str line)) (some DiffType.DEFAULT)
          a.rightLineNumber b.rightLineNumber hR]
        refine finishRow_shift k _ _ false _ _ ?_ rowOpt st' heq
        exact ⟨by simp <;> omega, by simp <;> omega, by simpa using hC,
          by simpa using hD, by simpa using hI⟩
      | true =>
        rw [getLineRow_eq_added [] diffArray dwd f diffIndex line lineIndex b
          hct] at heq
        rw [getLineRow_eq_added [] diffArray dwd f diffIndex line lineIndex a
          hcta]
        rw [shiftInfo_mk k (some (DiffValue.str line)) (some DiffType.ADDED)
          a.rightLineNumber b.rightLineNumber hR]
        rw [shiftInfo_empty k]
        refine finishRow_shift k _ _ true _ _ ?_ rowOpt st' heq
        exact ⟨by simp <;> omega, by simp <;> omega, by simpa using hC,
          by simpa using hD, by simpa using hI⟩
    | true =>
      cases hlt : lookaheadTarget diffArray diffIndex lineIndex with
      | none =>
        rw [getLineRow_eq_removed_pure [] diffArray dwd f diffIndex added line
          lineIndex b hct hlt] at heq
        rw [getLineRow_eq_removed_pure [] diffArray dwd f diffIndex added line
          lineIndex a hcta hlt]
        rw [removedLeft_shift k line a.leftLineNumber b.leftLineNumber hL]
        rw [shiftInfo_empty k]
        refine finishRow_shift k _ _ true _ _ ?_ rowOpt st' heq
        exact ⟨by simp <;> omega, by simp <;> omega, by simpa using hC,
          by simpa using hD, by simpa using hI⟩
      | some nl =>
        cases hct0 : b.ignoreDiffIndexes.contains (diffIndex, 0) with
        | true =>
          rw [getLineRow_eq_removed_skip [] diffArray dwd f diffIndex added
            line nl lineIndex b hct hlt
            (lookaheadLine_eq_none [] diffIndex nl _ hct0)] at heq
          injection heq with hA hB
          subst hA; subst hB
          rw [getLineRow_eq_removed_skip [] diffArray dwd f diffIndex added
            line nl lineIndex a hcta hlt
            (lookaheadLine_eq_none [] diffIndex nl _ (by simpa [hI] using hct0))]
          refine ⟨_, rfl, ?_⟩
          exact ⟨by simp <;> omega, by simpa using hR, by simpa using hC,
            by simpa using hD, by simpa using hI⟩
        | false =>
          have hlb := lookaheadLine_nil diffIndex nl
            { b with leftLineNumber := b.leftLineNumber + 1 } hct0
          have hla := lookaheadLine_nil diffIndex nl
            { a with leftLineNumber := a.leftLineNumber + 1 }
            (by simpa [hI] using hct0)
          rw [getLineRow_eq_removed_merge [] diffArray dwd f diffIndex added
            line nl lineIndex b _ _ hct hlt hlb] at heq
          rw [getLineRow_eq_removed_merge [] diffArray dwd f diffIndex added
            line nl lineIndex a _ _ hcta hlt hla]
          rw [removedLeft_shift k line a.leftLineNumber b.leftLineNumber hL]
          rw [shiftInfo_mk k (some (DiffValue.str nl)) (some DiffType.ADDED)
            a.rightLineNumber b.rightLineNumber hR]
          refine mergeRemoved_shift k dwd f diffIndex lineIndex line nl _ _
            _ _ ?_ rowOpt st' heq
          exact ⟨by simp <;> omega, by simp <;> omega, by simpa using hC,
            by simpa using hD, by simpa using hI⟩

theorem getLineRows_shift (diffArray : List Change) (dwd : Bool)
    (f : String → String → List Change) (diffIndex : Nat)
    (added removed : Bool) (k : Nat) :
    ∀ (lines : List String) (lineIndex : Nat) (a b : ReconcilerState),
      StShift k a b →
      ∀ rows st',
        getLineRows [] diffArray dwd f diffIndex added removed lines
          lineIndex b = (rows, st') →
        ∃ st2',
          getLineRows [] diffArray dwd f diffIndex added removed lines
            lineIndex a = (rows.map (shiftRow k), st2') ∧ StShift k st2' st' := by
  intro lines
  induction lines with
  | nil =>
    intro lineIndex a b hab rows st' heq
    unfold getLineRows at heq ⊢
    injection heq with hA hB
    subst hA; subst hB
    exact ⟨a, rfl, hab⟩
  | cons line rest ih =>
    intro lineIndex a b hab rows st' heq
    unfold getLineRows at heq
    obtain ⟨sa1, hpa, hrel1⟩ := getLineRow_shift diffArray dwd f diffIndex
      added removed line lineIndex k a b hab
      (getLineRow [] diffArray dwd f diffIndex added removed line lineIndex b).1
      (getLineRow [] diffArray dwd f diffIndex added removed line lineIndex b).2
      rfl
    obtain ⟨sa2, hqa, hrel2⟩ := ih (lineIndex + 1) sa1
      (getLineRow [] diffArray dwd f diffIndex added removed line lineIndex b).2
      hrel1
      (getLineRows [] diffArray dwd f diffIndex added removed rest
        (lineIndex + 1)
        (getLineRow [] diffArray dwd f diffIndex added removed line
          lineIndex b).2).1
      (getLineRows [] diffArray dwd f diffIndex added removed rest
        (lineIndex + 1)
        (getLineRow [] diffArray dwd f diffIndex added removed line
          lineIndex b).2).2 rfl
    have hrows : rows
        = (getLineRow [] diffArray dwd f diffIndex added removed line
            lineIndex b).1.toList
          ++ (getLineRows [] diffArray dwd f diffIndex added removed rest
            (lineIndex + 1)
            (getLineRow [] diffArray dwd f diffIndex added removed line
              lineIndex b).2).1 := by
      have := congrArg Prod.fst heq
      simp at this
      exact this.symm
    have hst' : st'
        = (getLineRows [] diffArray dwd f diffIndex added removed rest
            (lineIndex + 1)
            (getLineRow [] diffArray dwd f diffIndex added removed line
              lineIndex b).2).2 := by
      have := congrArg Prod.snd heq
      simp at this
      exact this.symm
    subst hrows; subst hst'
    refine ⟨sa2, ?_, hrel2⟩
    have hstep : getLineRows [] diffArray dwd f diffIndex added removed
        (line :: rest) lineIndex a
        = ((getLineRow [] diffArray dwd f diffIndex added removed line
              lineIndex a).1.toList
            ++ (getLineRows [] diffArray dwd f diffIndex added removed rest
              (lineIndex + 1)
              (getLineRow [] diffArray dwd f diffIndex added removed line
                lineIndex a).2).1,
          (getLineRows [] diffArray dwd f diffIndex added removed rest
            (lineIndex + 1)
            (getLineRow [] diffArray dwd f diffIndex added removed line
              lineIndex a).2).2) := rfl
    rw [hstep, hpa]
    dsimp only
    rw [hqa]
    dsimp only
    rw [List.map_append]
    congr 1
    cases (getLineRow [] diffArray dwd f diffIndex added removed line
      lineIndex b).1 with
    | none => simp
    | some row => simp

theorem runDiffChunks_shift (diffArray : List Change) (dwd : Bool)
    (f : String → String → List Change) (k : Nat) :
    ∀ (rest : List Change) (diffIndex : Nat) (a b : ReconcilerState),
      StShift k a b →
      ∀ rows st',
        runDiffChunks [] diffArray dwd f rest diffIndex b = (rows, st') →
        ∃ st2',
          runDiffChunks [] diffArray dwd f rest diffIndex a
            = (rows.map (shiftRow k), st2') ∧ StShift k st2' st' := by
  intro rest
  induction rest with
  | nil =>
    intro diffIndex a b hab rows st' heq
    unfold runDiffChunks at heq ⊢
    injection heq with hA hB
    subst hA; subst hB
    exact ⟨a, rfl, hab⟩
  | cons c rest' ih =>
    intro diffIndex a b hab rows st' heq
    unfold runDiffChunks at heq
    obtain ⟨sa1, hpa, hrel1⟩ := getLineRows_shift diffArray dwd f diffIndex
      c.added c.removed k (constructLines c.value) 0 a b hab
      (getLineInformation [] diffArray dwd f c.value diffIndex c.added
        c.removed b).1
      (getLineInformation [] diffArray dwd f c.value diffIndex c.added
        c.removed b).2 rfl
    obtain ⟨sa2, hqa, hrel2⟩ := ih (diffIndex + 1) sa1
      (getLineInformation [] diffArray dwd f c.value diffIndex c.added
        c.removed b).2 hrel1
      (runDiffChunks [] diffArray dwd f rest' (diffIndex + 1)
        (getLineInformation [] diffArray dwd f c.value diffIndex c.added
          c.removed b).2).1
      (runDiffChunks [] diffArray dwd f rest' (diffIndex + 1)
        (getLineInformation [] diffArray dwd f c.value diffIndex c.added
          c.removed b).2).2 rfl
    have hrows : rows
        = (getLineInformation [] diffArray dwd f c.value diffIndex c.added
            c.removed b).1
          ++ (runDiffChunks [] diffArray dwd f rest' (diffIndex + 1)
            (getLineInformation [] diffArray dwd f c.value diffIndex c.added
              c.removed b).2).1 := by
      have := congrArg Prod.fst heq
      simp at this
      exact this.symm
    have hst' : st'
        = (runDiffChunks [] diffArray dwd f rest' (diffIndex + 1)
            (getLineInformation [] diffArray dwd f c.value diffIndex c.added
              c.removed b).2).2 := by
      have := congrArg Prod.snd heq
      simp at this
      exact this.symm
    subst hrows; subst hst'
    refine ⟨sa2, ?_, hrel2⟩
    have hpa' : getLineInformation [] diffArray dwd f c.value diffIndex
        c.added c.removed a
        = ((getLineInformation [] diffArray dwd f c.value diffIndex c.added
            c.removed b).1.map (shiftRow k), sa1) := hpa
    have hstep : runDiffChunks [] diffArray dwd f (c :: rest') diffIndex a
        = ((getLineInformation [] diffArray dwd f c.value diffIndex c.added
              c.removed a).1
            ++ (runDiffChunks [] diffArray dwd f rest' (diffIndex + 1)
              (getLineInformation [] diffArray dwd f c.value diffIndex
                c.added c.removed a).2).1,
          (runDiffChunks [] diffArray dwd f rest' (diffIndex + 1)
            (getLineInformation [] diffArray dwd f c.value diffIndex c.added
              c.removed a).2).2) := rfl
    rw [hstep, hpa']
    dsimp only
    rw [hqa]
    dsimp only
    rw [List.map_append]

/-- C9: running `computeLineInformation` with `linesOffset = 5` (no forced
lines) yields the same rows as `linesOffset = 0` with every emitted left and
right line number increased by exactly 5 — identical row structure, types and
values — and an identical `diffLines` list. -/
theorem claim_C9 (diffArray : List Change) (disableWordDiff : Bool)
    (compareFunc : String → String → List Change) :
    (computeLineInformation diffArray disableWordDiff compareFunc 5
        []).lineInformation
      = (computeLineInformation diffArray disableWordDiff compareFunc 0
          []).lineInformation.map (shiftRow 5) ∧
    (computeLineInformation diffArray disableWordDiff compareFunc 5
        []).diffLines
      = (computeLineInformation diffArray disableWordDiff compareFunc 0
          []).diffLines := by
  obtain ⟨sa, hrun, hrel⟩ := runDiffChunks_shift diffArray disableWordDiff
    compareFunc 5 diffArray 0 ⟨5, 5, 0, [], []⟩ ⟨0, 0, 0, [], []⟩
    ⟨rfl, rfl, rfl, rfl, rfl⟩
    (runDiffChunks [] diffArray disableWordDiff compareFunc diffArray 0
      ⟨0, 0, 0, [], []⟩).1
    (runDiffChunks [] diffArray disableWordDiff compareFunc diffArray 0
      ⟨0, 0, 0, [], []⟩).2 rfl
  constructor
  · show (runDiffChunks [] diffArray disableWordDiff compareFunc diffArray 0
        ⟨5, 5, 0, [], []⟩).1 = _
    rw [hrun]
    rfl
  · show (runDiffChunks [] diffArray disableWordDiff compareFunc diffArray 0
        ⟨5, 5, 0, [], []⟩).2.diffLines = _
    rw [hrun]
    exact hrel.2.2.2.1

end ReactDiffViewer
